import Mathlib

/-!
Verification of the layout/placement engine and history manager of the
LikeInk designer. The definitions below are a shallow embedding of the
JavaScript source (`src/js/designer.js`): rectangles use exact rational
coordinates, the scene is a list of objects, and the history manager is a
record of its two stacks and the restoring flag.
-/

namespace Designer

/-- Axis-aligned rectangle `{left, top, right, bottom}` in surface-local
units, as used throughout `arrangeObjectOnCanvas`. -/
structure Rect where
  left : ℚ
  top : ℚ
  right : ℚ
  bottom : ℚ
deriving DecidableEq, Repr

/-- Width `right - left` of a rectangle. -/
def Rect.width (r : Rect) : ℚ := r.right - r.left

/-- Height `bottom - top` of a rectangle. -/
def Rect.height (r : Rect) : ℚ := r.bottom - r.top

/-- A rectangle with positive width and height. -/
def validRect (r : Rect) : Prop := r.left < r.right ∧ r.top < r.bottom

instance (r : Rect) : Decidable (validRect r) := by unfold validRect; infer_instance

/-- Componentwise containment: `a` lies inside `b` (closed rectangles). -/
def insideRect (a b : Rect) : Prop :=
  b.left ≤ a.left ∧ b.top ≤ a.top ∧ a.right ≤ b.right ∧ a.bottom ≤ b.bottom

instance (a b : Rect) : Decidable (insideRect a b) := by unfold insideRect; infer_instance

/-- Positive-area intersection of two rectangles (a degenerate or empty
intersection does not count, matching the source's degeneracy checks). -/
def rectsOverlap (a b : Rect) : Prop :=
  max a.left b.left < min a.right b.right ∧ max a.top b.top < min a.bottom b.bottom

instance (a b : Rect) : Decidable (rectsOverlap a b) := by unfold rectsOverlap; infer_instance

/-- Componentwise intersection rectangle (possibly degenerate). -/
def interRect (a b : Rect) : Rect :=
  ⟨max a.left b.left, max a.top b.top, min a.right b.right, min a.bottom b.bottom⟩

/-- Expand a rectangle by `g` on all four sides, as the blocker construction
in `arrangeObjectOnCanvas` does with `PLACEMENT_GUTTER`. -/
def expandRect (r : Rect) (g : ℚ) : Rect :=
  ⟨r.left - g, r.top - g, r.right + g, r.bottom + g⟩

/-- Point membership in a closed rectangle. -/
def memRect (p : ℚ × ℚ) (r : Rect) : Prop :=
  r.left ≤ p.1 ∧ p.1 ≤ r.right ∧ r.top ≤ p.2 ∧ p.2 ≤ r.bottom

instance (p : ℚ × ℚ) (r : Rect) : Decidable (memRect p r) := by unfold memRect; infer_instance

/-- Containment test from `pruneContainedRects`: `other` fully contains `rect`
(non-strict on every edge). -/
def containsRect (other rect : Rect) : Bool :=
  decide (other.left ≤ rect.left) && decide (other.top ≤ rect.top) &&
    decide (rect.right ≤ other.right) && decide (rect.bottom ≤ other.bottom)

/-- Clamp `rect` to `bounds` (the local helper `clampRect` of
`arrangeObjectOnCanvas`); `none` when the clamped rectangle is degenerate. -/
def clampRect (rect bounds : Rect) : Option Rect :=
  let clampedRect : Rect :=
    ⟨max rect.left bounds.left, max rect.top bounds.top,
     min rect.right bounds.right, min rect.bottom bounds.bottom⟩
  if clampedRect.right ≤ clampedRect.left ∨ clampedRect.bottom ≤ clampedRect.top then none
  else some clampedRect

/-- The four candidate remainder pieces (top, bottom, left, right) that
`subtractRect` builds in its `result` array before the final sliver filter. -/
def subtractRectRaw (freeRect blockerRect : Rect) : List Rect :=
  let intersection := interRect freeRect blockerRect
  (if freeRect.top < intersection.top then
      [⟨freeRect.left, freeRect.top, freeRect.right, intersection.top⟩] else []) ++
  (if intersection.bottom < freeRect.bottom then
      [⟨freeRect.left, intersection.bottom, freeRect.right, freeRect.bottom⟩] else []) ++
  (let middleTop := max freeRect.top intersection.top
   let middleBottom := min freeRect.bottom intersection.bottom
   if middleTop < middleBottom then
     (if freeRect.left < intersection.left then
         [⟨freeRect.left, middleTop, intersection.left, middleBottom⟩] else []) ++
     (if intersection.right < freeRect.right then
         [⟨intersection.right, middleTop, freeRect.right, middleBottom⟩] else [])
   else [])

/-- Keep only pieces that are not degenerate slivers (the
`rect.right - rect.left > 1 && rect.bottom - rect.top > 1` filter). -/
def notSliver (r : Rect) : Bool :=
  decide (1 < r.right - r.left) && decide (1 < r.bottom - r.top)

/-- Subtract `blockerRect` from `freeRect`: returns `[freeRect]` unchanged when
the intersection is degenerate, otherwise the filtered remainder pieces. -/
def subtractRect (freeRect blockerRect : Rect) : List Rect :=
  let intersection := interRect freeRect blockerRect
  if intersection.right ≤ intersection.left ∨ intersection.bottom ≤ intersection.top then
    [freeRect]
  else
    (subtractRectRaw freeRect blockerRect).filter notSliver

/-- Remove rectangles fully contained in another rectangle of the list
(comparison skips the rectangle's own index, exactly as the source's
`rects.some((other, otherIdx) => ...)` does). -/
def pruneContainedRects (rects : List Rect) : List Rect :=
  (rects.enum.filter (fun p =>
      ! rects.enum.any (fun q => decide (p.1 ≠ q.1) && containsRect q.2 p.2))).map Prod.snd

/-- Bleed margin in pixels: `Math.round(5 * 300 / 25.4)`. -/
def BLEED_PIXELS : ℚ := 59

/-- Extra padding inside the bleed edge for auto-placement. -/
def PLACEMENT_PADDING : ℚ := 20

/-- Minimum gap kept between placed objects. -/
def PLACEMENT_GUTTER : ℚ := 12

/-- Maximum number of history states kept. -/
def MAX_HISTORY : Nat := 20

/-- The safe placement area computed from the virtual canvas dimensions. -/
def safeRectOf (virtualWidth virtualHeight : ℚ) : Rect :=
  ⟨BLEED_PIXELS + PLACEMENT_PADDING, BLEED_PIXELS + PLACEMENT_PADDING,
   virtualWidth - BLEED_PIXELS - PLACEMENT_PADDING,
   virtualHeight - BLEED_PIXELS - PLACEMENT_PADDING⟩

/-- One step of the blocker loop in `arrangeObjectOnCanvas`: expand the
occupied box by the gutter, clamp it to the safe area and, if the clamp is
non-degenerate, subtract it from every current free rectangle. -/
def subtractBlocker (safeArea : Rect) (gutter : ℚ) (freeRects : List Rect)
    (bounds : Rect) : List Rect :=
  match clampRect (expandRect bounds gutter) safeArea with
  | some clampedBlocker => freeRects.flatMap (fun rect => subtractRect rect clampedBlocker)
  | none => freeRects

/-- Free-space computation: start from the whole safe area, subtract every
gutter-expanded occupied box, then prune contained rectangles. -/
def computeFreeSpace (safeArea : Rect) (occupiedBoxes : List Rect) (gutter : ℚ) : List Rect :=
  pruneContainedRects (occupiedBoxes.foldl (subtractBlocker safeArea gutter) [safeArea])

/-- Comparator of the free-rectangle sort `(a.top - b.top) || (a.left - b.left)`:
ascending by top, then by left. -/
def rectOrder (a b : Rect) : Bool :=
  decide (a.top < b.top) || (decide (a.top = b.top) && decide (a.left ≤ b.left))

/-- Insert a rectangle into a sorted list (stable insertion). -/
def insertRectSorted (r : Rect) : List Rect → List Rect
  | [] => [r]
  | x :: xs => if rectOrder r x then r :: x :: xs else x :: insertRectSorted r xs

/-- Stable sort of the free rectangles by `rectOrder`, modelling the
`freeRects.sort(...)` call. -/
def sortFreeRects : List Rect → List Rect
  | [] => []
  | x :: xs => insertRectSorted x (sortFreeRects xs)

/-- Fit test of the placement search: both dimensions of the free rectangle
meet or exceed the item's footprint. -/
def fitsIn (targetWidth targetHeight : ℚ) (rect : Rect) : Bool :=
  decide (targetWidth ≤ rect.right - rect.left) &&
    decide (targetHeight ≤ rect.bottom - rect.top)

/-- The position computation of `arrangeObjectOnCanvas` for an item of the
given footprint against the given blocker boxes. Returns the placement flag
and the centre position assigned via `set({left, top, originX: center, ...})`. -/
def findPlacement (virtualWidth virtualHeight targetWidth targetHeight : ℚ)
    (blockerBoxes : List Rect) : Bool × ℚ × ℚ :=
  let safeRect := safeRectOf virtualWidth virtualHeight
  if safeRect.right ≤ safeRect.left ∨ safeRect.bottom ≤ safeRect.top then
    (false, virtualWidth / 2, virtualHeight / 2)
  else
    let freeRects := sortFreeRects (computeFreeSpace safeRect blockerBoxes PLACEMENT_GUTTER)
    match freeRects.find? (fitsIn targetWidth targetHeight) with
    | some placementRect =>
        (true, placementRect.left + targetWidth / 2, placementRect.top + targetHeight / 2)
    | none =>
        (false, (safeRect.left + safeRect.right) / 2, (safeRect.top + safeRect.bottom) / 2)

/-- A user object on the canvas: its scaled footprint (`getScaledWidth`,
`getScaledHeight`) and its centre position (`originX = originY = center`). -/
structure Obj where
  w : ℚ
  h : ℚ
  cx : ℚ
  cy : ℚ
deriving DecidableEq, Repr

/-- Bounding box reported by `getBoundingRect` for a centred object. -/
def bboxOf (o : Obj) : Rect :=
  ⟨o.cx - o.w / 2, o.cy - o.h / 2, o.cx + o.w / 2, o.cy + o.h / 2⟩

/-- Bounding boxes of every scene object other than the one at index `i`
(the `getUserObjects().filter(obj => obj !== objToArrange)` blockers). -/
def blockersOf (scene : List Obj) (i : Nat) : List Rect :=
  (scene.enum.filter (fun p => decide (p.1 ≠ i))).map (fun p => bboxOf p.2)

/-- Scene-level `arrangeObjectOnCanvas`: computes a position for the object at
index `i` against all other objects and writes it back; every other object is
left untouched. Returns the updated scene and the placement flag. -/
def arrangeObjectOnCanvas (virtualWidth virtualHeight : ℚ) (scene : List Obj)
    (i : Nat) : List Obj × Bool :=
  match scene[i]? with
  | none => (scene, false)
  | some o =>
      let res := findPlacement virtualWidth virtualHeight o.w o.h (blockersOf scene i)
      (scene.set i { o with cx := res.2.1, cy := res.2.2 }, res.1)

/-- Out-of-safe-area test used by `reflowObjectsIntoSafeArea`. -/
def outOfBounds (safeRect : Rect) (o : Obj) : Bool :=
  decide ((bboxOf o).left < safeRect.left) || decide ((bboxOf o).top < safeRect.top) ||
    decide (safeRect.right < (bboxOf o).right) || decide (safeRect.bottom < (bboxOf o).bottom)

/-- Reflow: remove every out-of-bounds object, then re-add and re-arrange each
one in turn against the combined current scene. Returns the new scene and the
number of objects that were reprocessed. -/
def reflowObjectsIntoSafeArea (virtualWidth virtualHeight : ℚ) (scene : List Obj) :
    List Obj × Nat :=
  let safeRect := safeRectOf virtualWidth virtualHeight
  if safeRect.right ≤ safeRect.left ∨ safeRect.bottom ≤ safeRect.top then (scene, 0)
  else
    let outOfBoundsObjects := scene.filter (outOfBounds safeRect)
    if outOfBoundsObjects.isEmpty then (scene, 0)
    else
      let kept := scene.filter (fun o => ! outOfBounds safeRect o)
      let final := outOfBoundsObjects.foldl
        (fun sc o => (arrangeObjectOnCanvas virtualWidth virtualHeight (sc ++ [o]) sc.length).1)
        kept
      (final, outOfBoundsObjects.length)

/-- One clone attempt of the fill loop: `canvas.add(clone)`, arrange it, keep
it when placed, otherwise `canvas.remove(clone)`. The clone shares the base's
footprint. -/
def tryPlaceClone (virtualWidth virtualHeight : ℚ) (scene : List Obj) (base : Obj) :
    List Obj × Bool :=
  let res := arrangeObjectOnCanvas virtualWidth virtualHeight (scene ++ [base]) scene.length
  if res.2 then (res.1, true) else (scene, false)

/-- One full round of the fill loop: one clone attempt per placed original;
returns the new scene and `clonesPlacedInPass`. -/
def fillRound (virtualWidth virtualHeight : ℚ) (bases : List Obj) (scene : List Obj) :
    List Obj × Nat :=
  bases.foldl
    (fun acc base =>
      let step := tryPlaceClone virtualWidth virtualHeight acc.1 base
      (step.1, acc.2 + if step.2 then 1 else 0))
    (scene, 0)

/-- The `do ... while (clonesPlacedInPass > 0)` loop of `fillSheet`, with an
explicit fuel bound. The boolean is `true` exactly when the loop exited
through its stop condition (a round that placed zero clones) within the fuel. -/
def fillLoop (virtualWidth virtualHeight : ℚ) (bases : List Obj) :
    Nat → List Obj → List Obj × Bool
  | 0, scene => (scene, false)
  | fuel + 1, scene =>
      let round := fillRound virtualWidth virtualHeight bases scene
      if round.2 = 0 then (round.1, true)
      else fillLoop virtualWidth virtualHeight bases fuel round.1

/-- History manager state: the undo and redo stacks (top = last element, as
with JavaScript `push`/`pop`) and the `isRestoring` flag. -/
structure HistoryState where
  undoStack : List String
  redoStack : List String
  isRestoring : Bool
deriving DecidableEq, Repr

/-- Immediate capture (`saveStateImmediate`): given the serialization `state`
of the current non-decoration item set, push it if it differs from the top of
the undo stack, evict the oldest entry when the stack exceeds `MAX_HISTORY`,
and clear the redo stack; otherwise do nothing. -/
def saveStateImmediate (s : HistoryState) (state : String) : HistoryState :=
  if s.isRestoring then s
  else if s.undoStack.isEmpty ∨ s.undoStack.getLast? ≠ some state then
    let pushed := s.undoStack ++ [state]
    let limited := if MAX_HISTORY < pushed.length then pushed.tail else pushed
    { s with undoStack := limited, redoStack := [] }
  else s

/-- Outcome of the asynchronous `canvas.loadFromJSON` deserialization. -/
inductive LoadOutcome where
  | ok : LoadOutcome
  | err : LoadOutcome
deriving DecidableEq, Repr

/-- Restore (`restoreState`): sets `isRestoring = true`, then deserializes.
The source attaches only a fulfillment handler (`.then(...)`) that resets the
flag; there is no rejection handler, so on a failed deserialization the flag
keeps the value set at entry. -/
def restoreState (s : HistoryState) (outcome : LoadOutcome) : HistoryState :=
  let entered : HistoryState := { s with isRestoring := true }
  match outcome with
  | LoadOutcome.ok => { entered with isRestoring := false }
  | LoadOutcome.err => entered

/-- Undo: no-op when the undo stack has at most one entry; otherwise pop the
top onto the redo stack and restore the new top. The second component is the
snapshot handed to `restoreState` (if any). -/
def undo (s : HistoryState) : HistoryState × Option String :=
  if s.undoStack.length ≤ 1 then (s, none)
  else
    match s.undoStack.getLast?, s.undoStack.dropLast.getLast? with
    | some currentState, some previousState =>
        (⟨s.undoStack.dropLast, s.redoStack ++ [currentState], s.isRestoring⟩,
          some previousState)
    | _, _ => (s, none)

/-- Redo: no-op when the redo stack is empty; otherwise pop a snapshot, push
it back onto the undo stack, and restore it. -/
def redo (s : HistoryState) : HistoryState × Option String :=
  match s.redoStack.getLast? with
  | none => (s, none)
  | some state =>
      (⟨s.undoStack ++ [state], s.redoStack.dropLast, s.isRestoring⟩, some state)


/-- Twenty-five pairwise distinct snapshot serializations. -/
def exampleCaptures : List String :=
  ["a","b","c","d","e","f","g","h","i","j","k","l","m",
   "n","o","p","q","r","s","t","u","v","w","x","y"]

/-- Gap of at least `g` between two rectangles along one of the axes. -/
def sepBy (a b : Rect) (g : ℚ) : Prop :=
  a.right + g ≤ b.left ∨ b.right + g ≤ a.left ∨ a.bottom + g ≤ b.top ∨ b.bottom + g ≤ a.top

/-- Containment of `pruneContainedRects` is reflexive. -/
theorem containsRect_self (r : Rect) : containsRect r r = true := by
  simp [containsRect]

/-- C2: the claim says `restoreState` resets `isRestoring` on both the success
and the deserialization-failure path. The code sets the flag at entry and
attaches only a fulfillment handler to `loadFromJSON`, so a failed
deserialization leaves the flag latched at `true`. -/
theorem restoreState_flag (s : HistoryState) :
    (restoreState s LoadOutcome.ok).isRestoring = false ∧
    (restoreState s LoadOutcome.err).isRestoring = true := by
  constructor <;> rfl

/-- C9: `arrangeObjectOnCanvas` only writes the arranged object's position;
every other index of the scene is unchanged, in all branches. -/
theorem arrangeObjectOnCanvas_frame (vw vh : ℚ) (scene : List Obj) (i j : Nat)
    (hne : j ≠ i) :
    ((arrangeObjectOnCanvas vw vh scene i).1)[j]? = scene[j]? := by
  unfold arrangeObjectOnCanvas
  cases h : scene[i]? with
  | none => rfl
  | some o => simpa using List.getElem?_set_ne (Ne.symm hne)

theorem arrangeObjectOnCanvas_frame_witness :
    ((arrangeObjectOnCanvas 300 300 [⟨1,1,0,0⟩, ⟨2,2,5,5⟩] 0).1)[1]? =
      ([⟨1,1,0,0⟩, ⟨2,2,5,5⟩] : List Obj)[1]? :=
  arrangeObjectOnCanvas_frame 300 300 [⟨1,1,0,0⟩, ⟨2,2,5,5⟩] 0 1 (by decide)

/-- C8: undo after exactly one captured change restores the prior snapshot
byte-for-byte, redo right after restores the later one, and undo on a stack
with at most one entry is a no-op. -/
theorem undo_redo_spec (s0 s1 : String) (r : List String) (flag : Bool) :
    undo ⟨[s0, s1], r, flag⟩ = (⟨[s0], r ++ [s1], flag⟩, some s0) ∧
    redo (undo ⟨[s0, s1], r, flag⟩).1 = (⟨[s0, s1], r, flag⟩, some s1) ∧
    (∀ t : HistoryState, t.undoStack.length ≤ 1 → undo t = (t, none)) := by
  refine ⟨rfl, ?_, ?_⟩
  · show redo ⟨[s0], r ++ [s1], flag⟩ = _
    simp [redo]
  · intro t ht
    unfold undo
    rw [if_pos ht]

theorem undo_redo_spec_witness :
    undo ⟨["a"], [], false⟩ = (⟨["a"], [], false⟩, none) :=
  (undo_redo_spec "a" "b" [] false).2.2 ⟨["a"], [], false⟩ (by decide)

/-- C10: `pruneContainedRects` drops every rectangle that occurs at two
distinct indices of its input (each copy is contained in the other), so
duplicated free rectangles are removed entirely, not deduplicated. -/
theorem pruneContainedRects_duplicate (l : List Rect) (r : Rect)
    (h : ∃ i j : Nat, i ≠ j ∧ l[i]? = some r ∧ l[j]? = some r) :
    r ∉ pruneContainedRects l ∧ ∀ r' : Rect, pruneContainedRects [r', r'] = [] := by
  constructor
  · rintro hmem
    obtain ⟨p, hp, hpr⟩ := List.mem_map.1 hmem
    obtain ⟨hpe, hpred⟩ := List.mem_filter.1 hp
    obtain ⟨i, j, hij, hi, hj⟩ := h
    -- one of the two indices differs from p.1
    obtain ⟨k, hk, hkp⟩ : ∃ k, l[k]? = some r ∧ k ≠ p.1 := by
      by_cases hip : i = p.1
      · exact ⟨j, hj, by omega⟩
      · exact ⟨i, hi, hip⟩
    have hklen : k < l.length := by
      have := List.getElem?_eq_some_iff.1 hk
      exact this.1
    have hkval : l[k] = r := by
      have := List.getElem?_eq_some_iff.1 hk
      exact this.2
    have hk2 : k < l.enum.length := by simpa [List.enum_length] using hklen
    have hqmem : (k, r) ∈ l.enum := by
      have hval : l.enum[k] = (k, l[k]) := List.getElem_enum l k hk2
      rw [hkval] at hval
      rw [← hval]
      exact List.getElem_mem _
    simp only [Bool.not_eq_eq_eq_not, Bool.not_true, List.any_eq_false,
      Bool.and_eq_false_iff, decide_eq_false_iff_not, not_not] at hpred
    simp at hpred
    have hcontra := hpred k r hqmem (Ne.symm hkp)
    rw [hpr, containsRect_self] at hcontra
    exact Bool.noConfusion hcontra
  · intro r'
    simp [pruneContainedRects, List.enum, List.enumFrom, containsRect_self]

theorem pruneContainedRects_duplicate_witness :
    (⟨0,0,2,2⟩ : Rect) ∉ pruneContainedRects [⟨0,0,2,2⟩, ⟨0,0,2,2⟩] :=
  (pruneContainedRects_duplicate [⟨0,0,2,2⟩, ⟨0,0,2,2⟩] ⟨0,0,2,2⟩
    ⟨0, 1, by decide, by decide, by decide⟩).1

/-- C7: capture is a full no-op (no redo clear) when the serialization equals
the top of the undo stack; otherwise it pushes, evicts the oldest entry in
FIFO order when the stack exceeds `MAX_HISTORY`, and clears the redo stack;
25 distinct captures leave exactly the 20 newest snapshots. -/
theorem saveStateImmediate_spec (s : HistoryState) (st : String)
    (hflag : s.isRestoring = false) :
    (s.undoStack.getLast? = some st → saveStateImmediate s st = s) ∧
    (s.undoStack.getLast? ≠ some st →
      (saveStateImmediate s st).undoStack =
        (if MAX_HISTORY < (s.undoStack ++ [st]).length
         then (s.undoStack ++ [st]).tail else s.undoStack ++ [st]) ∧
      (saveStateImmediate s st).redoStack = []) ∧
    (List.foldl saveStateImmediate ⟨[], [], false⟩ exampleCaptures).undoStack =
      exampleCaptures.drop 5 := by
  refine ⟨?_, ?_, ?_⟩
  · intro htop
    have hne : s.undoStack.isEmpty = false := by
      cases h : s.undoStack with
      | nil => rw [h] at htop; exact absurd htop (by simp)
      | cons a t => rfl
    unfold saveStateImmediate
    rw [if_neg (by simp [hflag]), if_neg (by simp [htop, hne])]
  · intro hne
    unfold saveStateImmediate
    rw [if_neg (by simp [hflag]), if_pos (Or.inr hne)]
    exact ⟨rfl, rfl⟩
  · decide

theorem saveStateImmediate_spec_witness :
    saveStateImmediate ⟨["x"], ["y"], false⟩ "x" = ⟨["x"], ["y"], false⟩ :=
  (saveStateImmediate_spec ⟨["x"], ["y"], false⟩ "x" rfl).1 rfl


theorem subtractRectRaw_top_mem (f b : Rect) (h : f.top < (interRect f b).top) :
    (⟨f.left, f.top, f.right, (interRect f b).top⟩ : Rect) ∈ subtractRectRaw f b := by
  simp only [subtractRectRaw]
  refine List.mem_append.2 (Or.inl (List.mem_append.2 (Or.inl ?_)))
  rw [if_pos h]
  exact List.mem_singleton.2 rfl

theorem subtractRectRaw_bottom_mem (f b : Rect) (h : (interRect f b).bottom < f.bottom) :
    (⟨f.left, (interRect f b).bottom, f.right, f.bottom⟩ : Rect) ∈ subtractRectRaw f b := by
  simp only [subtractRectRaw]
  refine List.mem_append.2 (Or.inl (List.mem_append.2 (Or.inr ?_)))
  rw [if_pos h]
  exact List.mem_singleton.2 rfl

theorem subtractRectRaw_left_mem (f b : Rect)
    (hg : max f.top (interRect f b).top < min f.bottom (interRect f b).bottom)
    (h : f.left < (interRect f b).left) :
    (⟨f.left, max f.top (interRect f b).top, (interRect f b).left,
      min f.bottom (interRect f b).bottom⟩ : Rect) ∈ subtractRectRaw f b := by
  simp only [subtractRectRaw]
  refine List.mem_append.2 (Or.inr ?_)
  rw [if_pos hg]
  refine List.mem_append.2 (Or.inl ?_)
  rw [if_pos h]
  exact List.mem_singleton.2 rfl

theorem subtractRectRaw_right_mem (f b : Rect)
    (hg : max f.top (interRect f b).top < min f.bottom (interRect f b).bottom)
    (h : (interRect f b).right < f.right) :
    (⟨(interRect f b).right, max f.top (interRect f b).top, f.right,
      min f.bottom (interRect f b).bottom⟩ : Rect) ∈ subtractRectRaw f b := by
  simp only [subtractRectRaw]
  refine List.mem_append.2 (Or.inr ?_)
  rw [if_pos hg]
  refine List.mem_append.2 (Or.inr ?_)
  rw [if_pos h]
  exact List.mem_singleton.2 rfl

theorem subtractRectRaw_length_le (f b : Rect) : (subtractRectRaw f b).length ≤ 4 := by
  simp only [subtractRectRaw]
  repeat' split
  all_goals simp

/-- C6: `subtractRect` returns `[free]` unchanged when there is no
positive-area intersection with the blocker; otherwise it returns the at most
four top/bottom/left/right remainder pieces, filtered of degenerate slivers
(width or height at most 1 unit), and before that filter the pieces cover all
of `free \ blocker`. -/
theorem subtractRect_spec (freeRect blockerRect : Rect) :
    (¬ rectsOverlap freeRect blockerRect → subtractRect freeRect blockerRect = [freeRect]) ∧
    (rectsOverlap freeRect blockerRect →
      (subtractRect freeRect blockerRect).length ≤ 4 ∧
      subtractRect freeRect blockerRect =
        (subtractRectRaw freeRect blockerRect).filter notSliver ∧
      (∀ p : ℚ × ℚ, memRect p freeRect → ¬ memRect p blockerRect →
        ∃ r ∈ subtractRectRaw freeRect blockerRect, memRect p r)) := by
  constructor
  · intro hno
    unfold subtractRect
    rw [if_pos]
    unfold rectsOverlap at hno
    push_neg at hno
    rcases le_or_lt (min freeRect.right blockerRect.right) (max freeRect.left blockerRect.left)
      with h | h
    · exact Or.inl h
    · exact Or.inr (hno h)
  · intro hov
    have hcond : ¬ ((interRect freeRect blockerRect).right ≤ (interRect freeRect blockerRect).left ∨
        (interRect freeRect blockerRect).bottom ≤ (interRect freeRect blockerRect).top) := by
      unfold rectsOverlap at hov
      unfold interRect
      push_neg
      exact ⟨hov.1, hov.2⟩
    have heq : subtractRect freeRect blockerRect =
        (subtractRectRaw freeRect blockerRect).filter notSliver := by
      unfold subtractRect
      rw [if_neg hcond]
    refine ⟨?_, heq, ?_⟩
    · rw [heq]
      exact le_trans (List.length_filter_le _ _) (subtractRectRaw_length_le _ _)
    · intro p hpf hpb
      set i := interRect freeRect blockerRect with hi
      have hil : i.left = max freeRect.left blockerRect.left := rfl
      have hit : i.top = max freeRect.top blockerRect.top := rfl
      have hir : i.right = min freeRect.right blockerRect.right := rfl
      have hib : i.bottom = min freeRect.bottom blockerRect.bottom := rfl
      have hitb : i.top < i.bottom := by
        unfold rectsOverlap at hov; rw [hit, hib]; exact hov.2
      have hmt : max freeRect.top i.top = i.top :=
        max_eq_right (by rw [hit]; exact le_max_left _ _)
      have hmb : min freeRect.bottom i.bottom = i.bottom :=
        min_eq_right (by rw [hib]; exact min_le_left _ _)
      have hg : max freeRect.top i.top < min freeRect.bottom i.bottom := by
        rw [hmt, hmb]; exact hitb
      obtain ⟨hfl, hfr, hft, hfb⟩ := hpf
      have hdisj : p.1 < blockerRect.left ∨ blockerRect.right < p.1 ∨
          p.2 < blockerRect.top ∨ blockerRect.bottom < p.2 := by
        by_contra hno
        push_neg at hno
        exact hpb ⟨hno.1, hno.2.1, hno.2.2.1, hno.2.2.2⟩
      -- facts about the intersection bounds
      have hbl : blockerRect.left ≤ i.left := by rw [hil]; exact le_max_right _ _
      have hbt : blockerRect.top ≤ i.top := by rw [hit]; exact le_max_right _ _
      have hbr : i.right ≤ blockerRect.right := by rw [hir]; exact min_le_right _ _
      have hbb : i.bottom ≤ blockerRect.bottom := by rw [hib]; exact min_le_right _ _
      have hflt : freeRect.top ≤ i.top := by rw [hit]; exact le_max_left _ _
      have hfbb : i.bottom ≤ freeRect.bottom := by rw [hib]; exact min_le_left _ _
      rcases lt_or_le p.2 i.top with hy1 | hy1
      · -- p lies above the intersection band: top piece
        have htoppos : freeRect.top < i.top := lt_of_le_of_lt hft hy1
        exact ⟨_, subtractRectRaw_top_mem freeRect blockerRect htoppos,
          ⟨hfl, hfr, hft, le_of_lt hy1⟩⟩
      rcases lt_or_le i.bottom p.2 with hy2 | hy2
      · -- p lies below the intersection band: bottom piece
        have hbotpos : i.bottom < freeRect.bottom := lt_of_lt_of_le hy2 hfb
        exact ⟨_, subtractRectRaw_bottom_mem freeRect blockerRect hbotpos,
          ⟨hfl, hfr, le_of_lt hy2, hfb⟩⟩
      -- p lies inside the vertical band of the intersection
      have hyb : blockerRect.top ≤ p.2 := le_trans hbt hy1
      have hyb2 : p.2 ≤ blockerRect.bottom := le_trans hy2 hbb
      rcases hdisj with hx1 | hx2 | hy3 | hy4
      · -- p left of the blocker: left piece
        have hlpos : freeRect.left < i.left := lt_of_le_of_lt hfl (lt_of_lt_of_le hx1 hbl)
        refine ⟨_, subtractRectRaw_left_mem freeRect blockerRect hg hlpos,
          hfl, le_trans (le_of_lt hx1) hbl, ?_, ?_⟩
        · show max freeRect.top i.top ≤ p.2
          rw [hmt]; exact hy1
        · show p.2 ≤ min freeRect.bottom i.bottom
          rw [hmb]; exact hy2
      · -- p right of the blocker: right piece
        have hrpos : i.right < freeRect.right := lt_of_lt_of_le (lt_of_le_of_lt hbr hx2) hfr
        refine ⟨_, subtractRectRaw_right_mem freeRect blockerRect hg hrpos,
          le_trans hbr (le_of_lt hx2), hfr, ?_, ?_⟩
        · show max freeRect.top i.top ≤ p.2
          rw [hmt]; exact hy1
        · show p.2 ≤ min freeRect.bottom i.bottom
          rw [hmb]; exact hy2
      · exact absurd hyb (not_le.2 hy3)
      · exact absurd hyb2 (not_le.2 hy4)

theorem subtractRect_spec_witness :
    subtractRect ⟨0,0,100,100⟩ ⟨200,200,300,300⟩ = [⟨0,0,100,100⟩] ∧
    (subtractRect ⟨0,0,100,100⟩ ⟨30,30,70,70⟩).length ≤ 4 :=
  ⟨(subtractRect_spec ⟨0,0,100,100⟩ ⟨200,200,300,300⟩).1 (by decide),
   ((subtractRect_spec ⟨0,0,100,100⟩ ⟨30,30,70,70⟩).2 (by decide)).1⟩



theorem insideRect_refl (a : Rect) : insideRect a a :=
  ⟨le_refl _, le_refl _, le_refl _, le_refl _⟩

theorem insideRect_trans {a b c : Rect} (h1 : insideRect a b) (h2 : insideRect b c) :
    insideRect a c :=
  ⟨le_trans h2.1 h1.1, le_trans h2.2.1 h1.2.1,
   le_trans h1.2.2.1 h2.2.2.1, le_trans h1.2.2.2 h2.2.2.2⟩

theorem rectsOverlap_iff {a b : Rect} :
    rectsOverlap a b ↔
      (a.left < a.right ∧ a.left < b.right ∧ b.left < a.right ∧ b.left < b.right) ∧
      (a.top < a.bottom ∧ a.top < b.bottom ∧ b.top < a.bottom ∧ b.top < b.bottom) := by
  unfold rectsOverlap
  rw [max_lt_iff, max_lt_iff, lt_min_iff, lt_min_iff, lt_min_iff, lt_min_iff]
  tauto

theorem rectsOverlap_comm {a b : Rect} (h : rectsOverlap a b) : rectsOverlap b a := by
  obtain ⟨⟨x1, x2, x3, x4⟩, ⟨y1, y2, y3, y4⟩⟩ := rectsOverlap_iff.1 h
  exact rectsOverlap_iff.2 ⟨⟨x4, x3, x2, x1⟩, ⟨y4, y3, y2, y1⟩⟩

theorem rectsOverlap_mono_left {a b c : Rect} (hin : insideRect a b)
    (h : rectsOverlap a c) : rectsOverlap b c := by
  obtain ⟨⟨x1, x2, x3, x4⟩, ⟨y1, y2, y3, y4⟩⟩ := rectsOverlap_iff.1 h
  obtain ⟨hl, ht, hr, hb⟩ := hin
  exact rectsOverlap_iff.2
    ⟨⟨by linarith, by linarith, by linarith, by linarith⟩,
     ⟨by linarith, by linarith, by linarith, by linarith⟩⟩

theorem validRect_of_rectsOverlap {a b : Rect} (h : rectsOverlap a b) :
    validRect a ∧ validRect b := by
  obtain ⟨⟨x1, _, _, x4⟩, ⟨y1, _, _, y4⟩⟩ := rectsOverlap_iff.1 h
  exact ⟨⟨x1, y1⟩, ⟨x4, y4⟩⟩

/-- For a rectangle inside `s`, overlapping `e` is the same as overlapping the
clamp of `e` to `s`. -/
theorem rectsOverlap_interRect {a e s : Rect} (h : insideRect a s) :
    rectsOverlap a (interRect e s) ↔ rectsOverlap a e := by
  obtain ⟨sl, st, sr, sb⟩ := h
  constructor
  · intro hov
    exact rectsOverlap_comm (rectsOverlap_mono_left
      ⟨le_max_left _ _, le_max_left _ _, min_le_left _ _, min_le_left _ _⟩
      (rectsOverlap_comm hov))
  · intro hov
    obtain ⟨⟨x1, x2, x3, x4⟩, ⟨y1, y2, y3, y4⟩⟩ := rectsOverlap_iff.1 hov
    refine rectsOverlap_iff.2 ⟨⟨x1, ?_, ?_, ?_⟩, ⟨y1, ?_, ?_, ?_⟩⟩
    all_goals simp only [interRect]
    · exact lt_min_iff.2 ⟨by linarith, by linarith⟩
    · exact max_lt_iff.2 ⟨by linarith, by linarith⟩
    · exact max_lt_iff.2 ⟨lt_min_iff.2 ⟨by linarith, by linarith⟩,
        lt_min_iff.2 ⟨by linarith, by linarith⟩⟩
    · exact lt_min_iff.2 ⟨by linarith, by linarith⟩
    · exact max_lt_iff.2 ⟨by linarith, by linarith⟩
    · exact max_lt_iff.2 ⟨lt_min_iff.2 ⟨by linarith, by linarith⟩,
        lt_min_iff.2 ⟨by linarith, by linarith⟩⟩

/-- Two non-overlapping rectangles of positive dimensions are separated along
one of the axes. -/
theorem sep_of_not_overlap {a e : Rect} (ha : validRect a) (he : validRect e)
    (h : ¬ rectsOverlap a e) :
    a.right ≤ e.left ∨ e.right ≤ a.left ∨ a.bottom ≤ e.top ∨ e.bottom ≤ a.top := by
  obtain ⟨ha1, ha2⟩ := ha
  obtain ⟨he1, he2⟩ := he
  rcases not_and_or.1 h with hx | hy
  · have hx' : min a.right e.right ≤ max a.left e.left := not_lt.1 hx
    rcases max_cases a.left e.left with ⟨hm, hm'⟩ | ⟨hm, hm'⟩ <;>
      rcases min_cases a.right e.right with ⟨hn, hn'⟩ | ⟨hn, hn'⟩ <;>
      rw [hm, hn] at hx'
    · exact absurd hx' (not_le.2 ha1)
    · exact Or.inr (Or.inl (by linarith))
    · exact Or.inl (by linarith)
    · exact absurd hx' (not_le.2 he1)
  · have hy' : min a.bottom e.bottom ≤ max a.top e.top := not_lt.1 hy
    rcases max_cases a.top e.top with ⟨hm, hm'⟩ | ⟨hm, hm'⟩ <;>
      rcases min_cases a.bottom e.bottom with ⟨hn, hn'⟩ | ⟨hn, hn'⟩ <;>
      rw [hm, hn] at hy'
    · exact absurd hy' (not_le.2 ha2)
    · exact Or.inr (Or.inr (Or.inr (by linarith)))
    · exact Or.inr (Or.inr (Or.inl (by linarith)))
    · exact absurd hy' (not_le.2 he2)

/-- Exhaustive description of the four raw remainder pieces. -/
theorem subtractRectRaw_cases {f c out : Rect} (h : out ∈ subtractRectRaw f c) :
    (f.top < (interRect f c).top ∧
      out = ⟨f.left, f.top, f.right, (interRect f c).top⟩) ∨
    ((interRect f c).bottom < f.bottom ∧
      out = ⟨f.left, (interRect f c).bottom, f.right, f.bottom⟩) ∨
    (max f.top (interRect f c).top < min f.bottom (interRect f c).bottom ∧
      ((f.left < (interRect f c).left ∧
          out = ⟨f.left, max f.top (interRect f c).top, (interRect f c).left,
            min f.bottom (interRect f c).bottom⟩) ∨
        ((interRect f c).right < f.right ∧
          out = ⟨(interRect f c).right, max f.top (interRect f c).top, f.right,
            min f.bottom (interRect f c).bottom⟩))) := by
  simp only [subtractRectRaw, List.mem_append] at h
  rcases h with (h | h) | h
  · split at h
    · exact Or.inl ⟨by assumption, List.mem_singleton.1 h⟩
    · exact absurd h (List.not_mem_nil _)
  · split at h
    · exact Or.inr (Or.inl ⟨by assumption, List.mem_singleton.1 h⟩)
    · exact absurd h (List.not_mem_nil _)
  · split at h
    · rcases List.mem_append.1 h with h' | h'
      · split at h'
        · exact Or.inr (Or.inr ⟨by assumption, Or.inl ⟨by assumption, List.mem_singleton.1 h'⟩⟩)
        · exact absurd h' (List.not_mem_nil _)
      · split at h'
        · exact Or.inr (Or.inr ⟨by assumption, Or.inr ⟨by assumption, List.mem_singleton.1 h'⟩⟩)
        · exact absurd h' (List.not_mem_nil _)
    · exact absurd h (List.not_mem_nil _)

theorem not_rectsOverlap_of_le_x {a b : Rect}
    (h : min a.right b.right ≤ max a.left b.left) : ¬ rectsOverlap a b :=
  fun hov => absurd hov.1 (not_lt.2 h)

theorem not_rectsOverlap_of_le_y {a b : Rect}
    (h : min a.bottom b.bottom ≤ max a.top b.top) : ¬ rectsOverlap a b :=
  fun hov => absurd hov.2 (not_lt.2 h)

/-- Every subtraction output lies inside the original free rectangle. -/
theorem subtractRect_inside {f c out : Rect} (h : out ∈ subtractRect f c) :
    insideRect out f := by
  simp only [subtractRect] at h
  split at h
  · rw [List.mem_singleton.1 h]; exact insideRect_refl f
  · rename_i hnd
    have hnd' : (interRect f c).left < (interRect f c).right ∧
        (interRect f c).top < (interRect f c).bottom := by
      push_neg at hnd; exact ⟨hnd.1, hnd.2⟩
    have hIl : f.left ≤ (interRect f c).left := le_max_left _ _
    have hIt : f.top ≤ (interRect f c).top := le_max_left _ _
    have hIr : (interRect f c).right ≤ f.right := min_le_left _ _
    have hIb : (interRect f c).bottom ≤ f.bottom := min_le_left _ _
    have hraw := (List.mem_filter.1 h).1
    rcases subtractRectRaw_cases hraw with ⟨hc, he⟩ | ⟨hc, he⟩ | ⟨hg, hlr⟩
    · rw [he]
      exact ⟨le_refl _, le_refl _, le_refl _, le_trans (le_of_lt hnd'.2) hIb⟩
    · rw [he]
      exact ⟨le_refl _, le_trans hIt (le_of_lt hnd'.2), le_refl _, le_refl _⟩
    · rcases hlr with ⟨hc, he⟩ | ⟨hc, he⟩
      · rw [he]
        exact ⟨le_refl _, le_max_left _ _, le_trans (le_of_lt hnd'.1) hIr, min_le_left _ _⟩
      · rw [he]
        exact ⟨le_trans hIl (le_of_lt hnd'.1), le_max_left _ _, le_refl _, min_le_left _ _⟩

/-- No subtraction output has a positive-area intersection with the blocker. -/
theorem subtractRect_not_overlap {f c out : Rect} (h : out ∈ subtractRect f c) :
    ¬ rectsOverlap out c := by
  simp only [subtractRect] at h
  split at h
  · rename_i hdeg
    rw [List.mem_singleton.1 h]
    intro hov
    simp only [interRect] at hdeg
    rcases hdeg with h1 | h1
    · exact absurd hov.1 (not_lt.2 h1)
    · exact absurd hov.2 (not_lt.2 h1)
  · have hraw := (List.mem_filter.1 h).1
    rcases subtractRectRaw_cases hraw with ⟨hc, he⟩ | ⟨hc, he⟩ | ⟨hg, hlr⟩
    · rw [he]; exact not_rectsOverlap_of_le_y (min_le_left _ _)
    · rw [he]; exact not_rectsOverlap_of_le_y (le_max_left _ _)
    · rcases hlr with ⟨hc, he⟩ | ⟨hc, he⟩
      · rw [he]; exact not_rectsOverlap_of_le_x (min_le_left _ _)
      · rw [he]; exact not_rectsOverlap_of_le_x (le_max_left _ _)

/-- A subtraction output is either the untouched input or a filtered piece of
width and height above one unit. -/
theorem subtractRect_shape {f c out : Rect} (h : out ∈ subtractRect f c) :
    out = f ∨ (1 < out.right - out.left ∧ 1 < out.bottom - out.top) := by
  simp only [subtractRect] at h
  split at h
  · exact Or.inl (List.mem_singleton.1 h)
  · have hf := (List.mem_filter.1 h).2
    simp only [notSliver, Bool.and_eq_true, decide_eq_true_eq] at hf
    exact Or.inr hf


theorem clampRect_eq_none {e s : Rect} (h : clampRect e s = none) :
    (interRect e s).right ≤ (interRect e s).left ∨
      (interRect e s).bottom ≤ (interRect e s).top := by
  simp only [clampRect] at h
  split at h
  · assumption
  · exact absurd h (by simp)

theorem clampRect_eq_some {e s c : Rect} (h : clampRect e s = some c) :
    c = interRect e s := by
  simp only [clampRect] at h
  split at h
  · exact absurd h (by simp)
  · exact (Option.some.inj h).symm

/-- Every pruned rectangle comes from the input list. -/
theorem pruneContainedRects_subset {l : List Rect} {r : Rect}
    (h : r ∈ pruneContainedRects l) : r ∈ l := by
  obtain ⟨p, hp, hpr⟩ := List.mem_map.1 h
  obtain ⟨i, x⟩ := p
  have hpe := (List.mem_filter.1 hp).1
  obtain ⟨hlen, hval⟩ := List.mem_enum hpe
  have : x = r := hpr
  rw [← this, hval]
  exact List.getElem_mem _

/-- The output of `pruneContainedRects` is pairwise non-containing. -/
theorem pruneContainedRects_pairwise (l : List Rect) :
    (pruneContainedRects l).Pairwise
      (fun a b => containsRect b a = false ∧ containsRect a b = false) := by
  unfold pruneContainedRects
  rw [List.pairwise_map]
  have h1 : l.enum.Pairwise (fun p q => p.1 ≠ q.1) := by
    rw [List.pairwise_iff_getElem]
    intro i j hi hj hij
    rw [List.getElem_enum, List.getElem_enum]
    exact Nat.ne_of_lt hij
  have h2 := h1.filter
    (fun p => ! l.enum.any (fun q => decide (p.1 ≠ q.1) && containsRect q.2 p.2))
  refine List.Pairwise.imp_of_mem ?_ h2
  intro p q hp hq hne
  have hpm := List.mem_filter.1 hp
  have hqm := List.mem_filter.1 hq
  have hppred := hpm.2
  have hqpred := hqm.2
  simp only [Bool.not_eq_eq_eq_not, Bool.not_true, List.any_eq_false, Bool.and_eq_false_iff,
    decide_eq_false_iff_not, not_not] at hppred hqpred
  simp at hppred hqpred
  constructor
  · exact hppred q.1 q.2 (by simpa using hqm.1) (by exact hne)
  · exact hqpred p.1 p.2 (by simpa using hpm.1) (by exact Ne.symm hne)

/-- Invariant of the blocker-subtraction fold: every resulting rectangle lies
inside some initial rectangle, is either an untouched initial rectangle or a
filtered piece, and avoids every processed gutter-expanded blocker. -/
theorem foldl_subtractBlocker_spec (safe : Rect) (g : ℚ) (occ : List Rect) :
    ∀ init : List Rect, (∀ r ∈ init, insideRect r safe) →
      ∀ r ∈ occ.foldl (subtractBlocker safe g) init,
        (∃ r0 ∈ init, insideRect r r0) ∧
        (r ∈ init ∨ (1 < r.right - r.left ∧ 1 < r.bottom - r.top)) ∧
        (∀ b ∈ occ, ¬ rectsOverlap r (expandRect b g)) := by
  induction occ with
  | nil =>
      intro init hinit r hr
      exact ⟨⟨r, hr, insideRect_refl r⟩, Or.inl hr, by simp⟩
  | cons b occ ih =>
      intro init hinit r hr
      rw [List.foldl_cons] at hr
      have hstep : ∀ r' ∈ subtractBlocker safe g init b,
          insideRect r' safe ∧
          (∃ r0 ∈ init, insideRect r' r0) ∧
          (r' ∈ init ∨ (1 < r'.right - r'.left ∧ 1 < r'.bottom - r'.top)) ∧
          ¬ rectsOverlap r' (expandRect b g) := by
        intro r' hr'
        unfold subtractBlocker at hr'
        cases hclamp : clampRect (expandRect b g) safe with
        | none =>
            rw [hclamp] at hr'
            refine ⟨hinit r' hr', ⟨r', hr', insideRect_refl r'⟩, Or.inl hr', ?_⟩
            intro hov
            have hov' := (rectsOverlap_interRect (hinit r' hr')).2 hov
            have hval := (validRect_of_rectsOverlap hov').2
            rcases clampRect_eq_none hclamp with h1 | h1
            · exact absurd hval.1 (not_lt.2 h1)
            · exact absurd hval.2 (not_lt.2 h1)
        | some c =>
            rw [hclamp] at hr'
            obtain ⟨f, hf, hout⟩ := List.mem_flatMap.1 hr'
            have hceq := clampRect_eq_some hclamp
            have hin : insideRect r' safe :=
              insideRect_trans (subtractRect_inside hout) (hinit f hf)
            refine ⟨hin, ⟨f, hf, subtractRect_inside hout⟩, ?_, ?_⟩
            · rcases subtractRect_shape hout with he | hd
              · rw [he]; exact Or.inl hf
              · exact Or.inr hd
            · intro hov
              have hov' := (rectsOverlap_interRect hin).2 hov
              rw [← hceq] at hov'
              exact absurd hov' (subtractRect_not_overlap hout)
      have ihres := ih (subtractBlocker safe g init b)
        (fun r' h' => (hstep r' h').1) r hr
      obtain ⟨⟨r0, hr0, hin0⟩, hshape, hocc⟩ := ihres
      have hr0spec := hstep r0 hr0
      refine ⟨?_, ?_, ?_⟩
      · obtain ⟨r1, hr1, hin1⟩ := hr0spec.2.1
        exact ⟨r1, hr1, insideRect_trans hin0 hin1⟩
      · rcases hshape with hri | hd
        · exact (hstep r hri).2.2.1
        · exact Or.inr hd
      · intro b' hb'
        rcases List.mem_cons.1 hb' with he | hm
        · rw [he]
          intro hov
          exact absurd (rectsOverlap_mono_left hin0 hov) hr0spec.2.2.2
        · exact hocc b' hm

/-- Full specification of the free-space computation. -/
theorem computeFreeSpace_spec (safe : Rect) (occ : List Rect) (g : ℚ) :
    ∀ r ∈ computeFreeSpace safe occ g,
      insideRect r safe ∧
      (r = safe ∨ (1 < r.right - r.left ∧ 1 < r.bottom - r.top)) ∧
      ∀ b ∈ occ, ¬ rectsOverlap r (expandRect b g) := by
  intro r hr
  have hr' := pruneContainedRects_subset hr
  have h := foldl_subtractBlocker_spec safe g occ [safe]
    (by intro x hx; rw [List.mem_singleton.1 hx]; exact insideRect_refl safe) r hr'
  obtain ⟨⟨r0, hr0, hin⟩, hshape, hocc⟩ := h
  rw [List.mem_singleton.1 hr0] at hin
  refine ⟨hin, ?_, hocc⟩
  rcases hshape with h | h
  · exact Or.inl (List.mem_singleton.1 h)
  · exact Or.inr h

/-- C5: every rectangle produced by the free-space computation is a subset of
the safe area, and after pruning no rectangle of the list is fully contained
in another rectangle of the list. -/
theorem computeFreeSpace_inside_pruned (safeArea : Rect) (occupiedBoxes : List Rect)
    (gutter : ℚ) :
    (∀ r ∈ computeFreeSpace safeArea occupiedBoxes gutter, insideRect r safeArea) ∧
    (computeFreeSpace safeArea occupiedBoxes gutter).Pairwise
      (fun a b => containsRect b a = false ∧ containsRect a b = false) := by
  constructor
  · intro r hr
    exact (computeFreeSpace_spec safeArea occupiedBoxes gutter r hr).1
  · unfold computeFreeSpace
    exact pruneContainedRects_pairwise _


theorem mem_insertRectSorted {r x : Rect} {l : List Rect} :
    x ∈ insertRectSorted r l ↔ x = r ∨ x ∈ l := by
  induction l with
  | nil => simp [insertRectSorted]
  | cons a t ih =>
      unfold insertRectSorted
      split
      · simp only [List.mem_cons]
      · simp only [List.mem_cons, ih]
        tauto

theorem mem_sortFreeRects {x : Rect} {l : List Rect} :
    x ∈ sortFreeRects l ↔ x ∈ l := by
  induction l with
  | nil => simp [sortFreeRects]
  | cons a t ih =>
      unfold sortFreeRects
      rw [mem_insertRectSorted]
      simp [List.mem_cons, ih]

/-- A fitting free rectangle exists, so the placement search succeeds. -/
theorem findPlacement_found (vw vh tw th : ℚ) (blockers : List Rect)
    (hvalid : validRect (safeRectOf vw vh))
    (hex : ∃ r ∈ computeFreeSpace (safeRectOf vw vh) blockers PLACEMENT_GUTTER,
      fitsIn tw th r = true) :
    (findPlacement vw vh tw th blockers).1 = true := by
  have hnd : ¬ ((safeRectOf vw vh).right ≤ (safeRectOf vw vh).left ∨
      (safeRectOf vw vh).bottom ≤ (safeRectOf vw vh).top) := by
    push_neg
    exact ⟨hvalid.1, hvalid.2⟩
  simp only [findPlacement]
  rw [if_neg hnd]
  obtain ⟨r, hr, hfit⟩ := hex
  have hsome : ((sortFreeRects
      (computeFreeSpace (safeRectOf vw vh) blockers PLACEMENT_GUTTER)).find?
        (fitsIn tw th)).isSome :=
    List.find?_isSome.2 ⟨r, mem_sortFreeRects.2 hr, hfit⟩
  cases hfind : (sortFreeRects
      (computeFreeSpace (safeRectOf vw vh) blockers PLACEMENT_GUTTER)).find?
        (fitsIn tw th) with
  | none => rw [hfind] at hsome; exact absurd hsome (by simp)
  | some R => rfl

/-- What a successful placement guarantees: the placed bounding box sits in
the safe area, avoids every gutter-expanded blocker, and keeps a full gutter
of separation from every blocker of nonnegative dimensions. -/
theorem findPlacement_true_spec (vw vh tw th x y : ℚ) (blockers : List Rect)
    (hvalid : validRect (safeRectOf vw vh)) (htw : 0 ≤ tw) (hth : 0 ≤ th)
    (hres : findPlacement vw vh tw th blockers = (true, x, y)) :
    insideRect (bboxOf ⟨tw, th, x, y⟩) (safeRectOf vw vh) ∧
    (∀ b ∈ blockers,
      ¬ rectsOverlap (bboxOf ⟨tw, th, x, y⟩) (expandRect b PLACEMENT_GUTTER)) ∧
    (∀ b ∈ blockers, b.left ≤ b.right → b.top ≤ b.bottom →
      sepBy (bboxOf ⟨tw, th, x, y⟩) b PLACEMENT_GUTTER) := by
  have hnd : ¬ ((safeRectOf vw vh).right ≤ (safeRectOf vw vh).left ∨
      (safeRectOf vw vh).bottom ≤ (safeRectOf vw vh).top) := by
    push_neg
    exact ⟨hvalid.1, hvalid.2⟩
  simp only [findPlacement] at hres
  rw [if_neg hnd] at hres
  cases hfind : (sortFreeRects
      (computeFreeSpace (safeRectOf vw vh) blockers PLACEMENT_GUTTER)).find?
        (fitsIn tw th) with
  | none =>
      rw [hfind] at hres
      have hcontra : (false : Bool) = true := congrArg Prod.fst hres
      exact absurd hcontra (by simp)
  | some R =>
      rw [hfind] at hres
      have hres' : ((true : Bool), R.left + tw / 2, R.top + th / 2) = (true, x, y) := hres
      simp only [Prod.mk.injEq, true_and] at hres'
      obtain ⟨hx, hy⟩ := hres'
      subst hx
      subst hy
      have hmem : R ∈ computeFreeSpace (safeRectOf vw vh) blockers PLACEMENT_GUTTER :=
        mem_sortFreeRects.1 (List.mem_of_find?_eq_some hfind)
      have hfits := List.find?_some hfind
      simp only [fitsIn, Bool.and_eq_true, decide_eq_true_eq] at hfits
      obtain ⟨hin, hshape, hnov⟩ :=
        computeFreeSpace_spec (safeRectOf vw vh) blockers PLACEMENT_GUTTER R hmem
      have hRvalid : validRect R := by
        rcases hshape with he | hd
        · rw [he]; exact hvalid
        · exact ⟨by linarith [hd.1], by linarith [hd.2]⟩
      have hboxin : insideRect (bboxOf ⟨tw, th, R.left + tw / 2, R.top + th / 2⟩) R := by
        simp only [bboxOf, insideRect]
        refine ⟨by linarith, by linarith, by linarith, by linarith⟩
      refine ⟨insideRect_trans hboxin hin, ?_, ?_⟩
      · intro b hb hov
        exact absurd (rectsOverlap_mono_left hboxin hov) (hnov b hb)
      · intro b hb hbw hbh
        have hg0 : (0 : ℚ) < PLACEMENT_GUTTER := by norm_num [PLACEMENT_GUTTER]
        have hexp : validRect (expandRect b PLACEMENT_GUTTER) := by
          simp only [validRect, expandRect]
          exact ⟨by linarith, by linarith⟩
        have hsep := sep_of_not_overlap hRvalid hexp (hnov b hb)
        simp only [expandRect] at hsep
        unfold sepBy
        simp only [bboxOf]
        rcases hsep with h | h | h | h
        · exact Or.inl (by linarith [hfits.1])
        · exact Or.inr (Or.inl (by linarith [hfits.1]))
        · exact Or.inr (Or.inr (Or.inl (by linarith [hfits.2])))
        · exact Or.inr (Or.inr (Or.inr (by linarith [hfits.2])))

/-- On the fallback path the returned position is the safe-area centroid. -/
theorem findPlacement_false_pos (vw vh tw th x y : ℚ) (blockers : List Rect)
    (hvalid : validRect (safeRectOf vw vh))
    (hres : findPlacement vw vh tw th blockers = (false, x, y)) :
    x = ((safeRectOf vw vh).left + (safeRectOf vw vh).right) / 2 ∧
    y = ((safeRectOf vw vh).top + (safeRectOf vw vh).bottom) / 2 := by
  have hnd : ¬ ((safeRectOf vw vh).right ≤ (safeRectOf vw vh).left ∨
      (safeRectOf vw vh).bottom ≤ (safeRectOf vw vh).top) := by
    push_neg
    exact ⟨hvalid.1, hvalid.2⟩
  simp only [findPlacement] at hres
  rw [if_neg hnd] at hres
  cases hfind : (sortFreeRects
      (computeFreeSpace (safeRectOf vw vh) blockers PLACEMENT_GUTTER)).find?
        (fitsIn tw th) with
  | none =>
      rw [hfind] at hres
      have hres' : ((false : Bool), ((safeRectOf vw vh).left + (safeRectOf vw vh).right) / 2,
          ((safeRectOf vw vh).top + (safeRectOf vw vh).bottom) / 2) = (false, x, y) := hres
      simp only [Prod.mk.injEq, true_and] at hres'
      exact ⟨hres'.1.symm, hres'.2.symm⟩
  | some R =>
      rw [hfind] at hres
      have hcontra : (true : Bool) = false := congrArg Prod.fst hres
      exact absurd hcontra (by simp)

/-- C1: whenever the free-space computation offers a rectangle at least as
large as the item footprint, `arrangeObjectOnCanvas` returns `true` and the
item ends with a bounding box inside the safe area that has no positive-area
intersection with any other item's gutter-expanded bounding box. -/
theorem arrangeObjectOnCanvas_success (vw vh : ℚ) (scene : List Obj) (i : Nat) (o : Obj)
    (ho : scene[i]? = some o) (hw : 0 ≤ o.w) (hh : 0 ≤ o.h)
    (hvalid : validRect (safeRectOf vw vh))
    (hex : ∃ r ∈ computeFreeSpace (safeRectOf vw vh) (blockersOf scene i) PLACEMENT_GUTTER,
      o.w ≤ r.right - r.left ∧ o.h ≤ r.bottom - r.top) :
    (arrangeObjectOnCanvas vw vh scene i).2 = true ∧
    ∃ o', ((arrangeObjectOnCanvas vw vh scene i).1)[i]? = some o' ∧
      o'.w = o.w ∧ o'.h = o.h ∧
      insideRect (bboxOf o') (safeRectOf vw vh) ∧
      ∀ b ∈ blockersOf scene i,
        ¬ rectsOverlap (bboxOf o') (expandRect b PLACEMENT_GUTTER) := by
  have hex' : ∃ r ∈ computeFreeSpace (safeRectOf vw vh) (blockersOf scene i)
      PLACEMENT_GUTTER, fitsIn o.w o.h r = true := by
    obtain ⟨r, hr, h1, h2⟩ := hex
    exact ⟨r, hr, by simp only [fitsIn, Bool.and_eq_true, decide_eq_true_eq]; exact ⟨h1, h2⟩⟩
  have htrue := findPlacement_found vw vh o.w o.h (blockersOf scene i) hvalid hex'
  have hres : findPlacement vw vh o.w o.h (blockersOf scene i) =
      ((findPlacement vw vh o.w o.h (blockersOf scene i)).1,
        (findPlacement vw vh o.w o.h (blockersOf scene i)).2.1,
        (findPlacement vw vh o.w o.h (blockersOf scene i)).2.2) := rfl
  rw [htrue] at hres
  have hspec := findPlacement_true_spec vw vh o.w o.h
    (findPlacement vw vh o.w o.h (blockersOf scene i)).2.1
    (findPlacement vw vh o.w o.h (blockersOf scene i)).2.2 (blockersOf scene i)
    hvalid hw hh hres
  have hlen : i < scene.length := (List.getElem?_eq_some_iff.1 ho).1
  constructor
  · simp only [arrangeObjectOnCanvas, ho]
    exact htrue
  · refine ⟨⟨o.w, o.h, (findPlacement vw vh o.w o.h (blockersOf scene i)).2.1,
      (findPlacement vw vh o.w o.h (blockersOf scene i)).2.2⟩, ?_, rfl, rfl,
      hspec.1, hspec.2.1⟩
    simp only [arrangeObjectOnCanvas, ho]
    exact List.getElem?_set_self hlen

theorem computeFreeSpace_nil (s : Rect) (g : ℚ) : computeFreeSpace s [] g = [s] := rfl

theorem arrangeObjectOnCanvas_success_witness :
    (arrangeObjectOnCanvas 300 300 [⟨10, 10, 0, 0⟩] 0).2 = true :=
  (arrangeObjectOnCanvas_success 300 300 [⟨10, 10, 0, 0⟩] 0 ⟨10, 10, 0, 0⟩
    rfl (by norm_num) (by norm_num)
    (by simp only [validRect, safeRectOf, BLEED_PIXELS, PLACEMENT_PADDING]; norm_num)
    ⟨safeRectOf 300 300,
     by rw [show blockersOf [(⟨10, 10, 0, 0⟩ : Obj)] 0 = [] from rfl, computeFreeSpace_nil]
        exact List.mem_singleton.2 rfl,
     by simp only [safeRectOf, BLEED_PIXELS, PLACEMENT_PADDING]; norm_num,
     by simp only [safeRectOf, BLEED_PIXELS, PLACEMENT_PADDING]; norm_num⟩).1



/-- Arranging a freshly appended object rewrites only that object's position:
the scene becomes the old prefix plus the repositioned object. -/
theorem arrangeObjectOnCanvas_append (vw vh : ℚ) (sc : List Obj) (o : Obj) :
    arrangeObjectOnCanvas vw vh (sc ++ [o]) sc.length =
      (sc ++ [⟨o.w, o.h,
        (findPlacement vw vh o.w o.h (blockersOf (sc ++ [o]) sc.length)).2.1,
        (findPlacement vw vh o.w o.h (blockersOf (sc ++ [o]) sc.length)).2.2⟩],
       (findPlacement vw vh o.w o.h (blockersOf (sc ++ [o]) sc.length)).1) := by
  simp only [arrangeObjectOnCanvas, List.getElem?_concat_length]
  rw [List.set_append]
  simp

/-- An object is not out of bounds exactly when its bounding box is inside
the safe rectangle. -/
theorem outOfBounds_eq_false_iff {safe : Rect} {o : Obj} :
    outOfBounds safe o = false ↔ insideRect (bboxOf o) safe := by
  simp only [outOfBounds, Bool.or_eq_false_iff, decide_eq_false_iff_not, not_lt, insideRect]
  tauto

/-- Every object produced by the reflow re-placement fold is in bounds,
provided the accumulator is in bounds and every footprint fits the safe
area. -/
theorem reflow_fold_inBounds (vw vh : ℚ) (hvalid : validRect (safeRectOf vw vh)) :
    ∀ objs sc : List Obj,
      (∀ x ∈ sc, outOfBounds (safeRectOf vw vh) x = false) →
      (∀ x ∈ objs, 0 ≤ x.w ∧ 0 ≤ x.h ∧
        x.w ≤ (safeRectOf vw vh).right - (safeRectOf vw vh).left ∧
        x.h ≤ (safeRectOf vw vh).bottom - (safeRectOf vw vh).top) →
      ∀ x ∈ objs.foldl
          (fun sc o => (arrangeObjectOnCanvas vw vh (sc ++ [o]) sc.length).1) sc,
        outOfBounds (safeRectOf vw vh) x = false := by
  intro objs
  induction objs with
  | nil => intro sc hsc _ x hx; exact hsc x hx
  | cons o objs ih =>
      intro sc hsc hdims x hx
      rw [List.foldl_cons] at hx
      refine ih _ ?_ (fun y hy => hdims y (List.mem_cons_of_mem _ hy)) x hx
      intro y hy
      rw [arrangeObjectOnCanvas_append] at hy
      obtain ⟨hw, hh, hfw, hfh⟩ := hdims o (List.mem_cons_self _ _)
      rcases List.mem_append.1 hy with hy | hy
      · exact hsc y hy
      · rw [List.mem_singleton.1 hy]
        rw [outOfBounds_eq_false_iff]
        cases hflag : (findPlacement vw vh o.w o.h
            (blockersOf (sc ++ [o]) sc.length)).1 with
        | true =>
            have hres : findPlacement vw vh o.w o.h (blockersOf (sc ++ [o]) sc.length) =
                ((findPlacement vw vh o.w o.h (blockersOf (sc ++ [o]) sc.length)).1,
                 (findPlacement vw vh o.w o.h (blockersOf (sc ++ [o]) sc.length)).2.1,
                 (findPlacement vw vh o.w o.h (blockersOf (sc ++ [o]) sc.length)).2.2) := rfl
            rw [hflag] at hres
            exact (findPlacement_true_spec vw vh o.w o.h _ _ _ hvalid hw hh hres).1
        | false =>
            have hres : findPlacement vw vh o.w o.h (blockersOf (sc ++ [o]) sc.length) =
                ((findPlacement vw vh o.w o.h (blockersOf (sc ++ [o]) sc.length)).1,
                 (findPlacement vw vh o.w o.h (blockersOf (sc ++ [o]) sc.length)).2.1,
                 (findPlacement vw vh o.w o.h (blockersOf (sc ++ [o]) sc.length)).2.2) := rfl
            rw [hflag] at hres
            obtain ⟨hcx, hcy⟩ := findPlacement_false_pos vw vh o.w o.h _ _ _ hvalid hres
            rw [hcx, hcy]
            obtain ⟨hv1, hv2⟩ := hvalid
            simp only [bboxOf, insideRect]
            refine ⟨by linarith, by linarith, by linarith, by linarith⟩

/-- A degenerate safe area makes reflow a no-op. -/
theorem reflow_degenerate (vw vh : ℚ) (s : List Obj)
    (hdeg : (safeRectOf vw vh).right ≤ (safeRectOf vw vh).left ∨
      (safeRectOf vw vh).bottom ≤ (safeRectOf vw vh).top) :
    reflowObjectsIntoSafeArea vw vh s = (s, 0) := by
  simp only [reflowObjectsIntoSafeArea]
  rw [if_pos hdeg]

/-- Reflow reprocesses zero objects when every object is already in bounds. -/
theorem reflow_count_zero (vw vh : ℚ) (s : List Obj)
    (h : ∀ x ∈ s, outOfBounds (safeRectOf vw vh) x = false) :
    reflowObjectsIntoSafeArea vw vh s = (s, 0) := by
  simp only [reflowObjectsIntoSafeArea]
  split
  · rfl
  · have hempty : (s.filter (outOfBounds (safeRectOf vw vh))).isEmpty = true := by
      rw [List.isEmpty_iff, List.filter_eq_nil_iff]
      intro a ha
      simp [h a ha]
    rw [if_pos hempty]

/-- C4 (amended): if every item's footprint fits inside the safe area, the
second of two consecutive reflow calls reprocesses zero items. -/
theorem reflow_idempotent_of_fits (vw vh : ℚ) (scene : List Obj)
    (hfit : ∀ o ∈ scene, 0 ≤ o.w ∧ 0 ≤ o.h ∧
      o.w ≤ (safeRectOf vw vh).right - (safeRectOf vw vh).left ∧
      o.h ≤ (safeRectOf vw vh).bottom - (safeRectOf vw vh).top) :
    (reflowObjectsIntoSafeArea vw vh (reflowObjectsIntoSafeArea vw vh scene).1).2 = 0 := by
  by_cases hdeg : (safeRectOf vw vh).right ≤ (safeRectOf vw vh).left ∨
      (safeRectOf vw vh).bottom ≤ (safeRectOf vw vh).top
  · rw [reflow_degenerate vw vh scene hdeg]
    rw [reflow_degenerate vw vh scene hdeg]
  · have hvalid : validRect (safeRectOf vw vh) := by
      push_neg at hdeg
      exact ⟨hdeg.1, hdeg.2⟩
    have hin : ∀ x ∈ (reflowObjectsIntoSafeArea vw vh scene).1,
        outOfBounds (safeRectOf vw vh) x = false := by
      simp only [reflowObjectsIntoSafeArea]
      rw [if_neg hdeg]
      by_cases hout : (scene.filter (outOfBounds (safeRectOf vw vh))).isEmpty = true
      · rw [if_pos hout]
        intro x hx
        rw [List.isEmpty_iff, List.filter_eq_nil_iff] at hout
        simpa using hout x hx
      · rw [if_neg hout]
        intro x hx
        refine reflow_fold_inBounds vw vh hvalid _ _ ?_ ?_ x hx
        · intro y hy
          have hb := (List.mem_filter.1 hy).2
          simpa using hb
        · intro y hy
          exact hfit y (List.mem_filter.1 hy).1
    rw [reflow_count_zero vw vh _ hin]

theorem reflow_idempotent_of_fits_witness :
    (reflowObjectsIntoSafeArea 300 300
      (reflowObjectsIntoSafeArea 300 300 [⟨10, 10, 0, 0⟩]).1).2 = 0 :=
  reflow_idempotent_of_fits 300 300 [⟨10, 10, 0, 0⟩] (by
    intro o ho
    rw [List.mem_singleton] at ho
    subst ho
    refine ⟨by norm_num, by norm_num, ?_, ?_⟩ <;>
      · simp only [safeRectOf, BLEED_PIXELS, PLACEMENT_PADDING]
        norm_num)

/-- C4 counterexample: an item wider than the safe area is out of bounds
again after the first reflow (it stays at the centered fallback), so the
second consecutive reflow call reprocesses 1 item, not 0. -/
theorem reflow_not_idempotent_cex :
    (reflowObjectsIntoSafeArea 300 300
      ((reflowObjectsIntoSafeArea 300 300 [⟨1000, 1000, 0, 0⟩]).1)).2 ≠ 0 := by
  have hnv : ¬ ((safeRectOf 300 300).right ≤ (safeRectOf 300 300).left ∨
      (safeRectOf 300 300).bottom ≤ (safeRectOf 300 300).top) := by
    simp only [safeRectOf, BLEED_PIXELS, PLACEMENT_PADDING]
    push_neg
    norm_num
  have hwide : ∀ x y : ℚ, outOfBounds (safeRectOf 300 300) ⟨1000, 1000, x, y⟩ = true := by
    intro x y
    simp only [outOfBounds, bboxOf, safeRectOf, BLEED_PIXELS, PLACEMENT_PADDING,
      Bool.or_eq_true, decide_eq_true_eq]
    rcases lt_or_le (x - 1000 / 2) (59 + 20) with h | h
    · exact Or.inl (Or.inl (Or.inl h))
    · exact Or.inl (Or.inr (by linarith))
  have h1 : ∃ x y : ℚ, (reflowObjectsIntoSafeArea 300 300 [⟨1000, 1000, 0, 0⟩]).1 =
      [⟨1000, 1000, x, y⟩] := by
    simp only [reflowObjectsIntoSafeArea]
    rw [if_neg hnv]
    simp only [List.filter_cons, List.filter_nil, hwide 0 0, if_true, Bool.not_true,
      Bool.false_eq_true, if_false, List.isEmpty_cons, List.foldl_cons, List.foldl_nil,
      List.nil_append, List.length_nil]
    simp only [arrangeObjectOnCanvas, List.getElem?_cons_zero, List.set_cons_zero]
    exact ⟨_, _, rfl⟩
  obtain ⟨x, y, hs1⟩ := h1
  rw [hs1]
  simp only [reflowObjectsIntoSafeArea]
  rw [if_neg hnv]
  simp only [List.filter_cons, List.filter_nil, hwide x y, if_true, List.isEmpty_cons]
  simp



theorem sepBy_comm {a b : Rect} {g : ℚ} (h : sepBy a b g) : sepBy b a g := by
  unfold sepBy at *
  tauto

/-- The bounding box of every other scene object is among the blockers used
when arranging a freshly appended object. -/
theorem mem_blockersOf_append (sc : List Obj) (o b : Obj) (hb : b ∈ sc) :
    bboxOf b ∈ blockersOf (sc ++ [o]) sc.length := by
  obtain ⟨i, hi, hval⟩ := List.mem_iff_getElem.1 hb
  have hi' : i < (sc ++ [o]).length := by
    rw [List.length_append]
    omega
  have hval' : (sc ++ [o])[i] = b := by
    rw [List.getElem_append_left hi]
    exact hval
  have hmem : (i, b) ∈ (sc ++ [o]).enum := by
    have he := List.getElem_enum (sc ++ [o]) i (by simpa [List.enum_length] using hi')
    rw [hval'] at he
    rw [← he]
    exact List.getElem_mem _
  refine List.mem_map.2 ⟨(i, b), List.mem_filter.2 ⟨hmem, ?_⟩, rfl⟩
  simp [Nat.ne_of_lt hi]

/-- A clone attempt either leaves the scene untouched and reports `false`, or
appends one clone of the base's footprint whose bounding box sits in the safe
area with a full gutter of separation from every nonnegative-footprint scene
object. -/
theorem tryPlaceClone_spec (vw vh : ℚ) (scene : List Obj) (base : Obj)
    (hvalid : validRect (safeRectOf vw vh)) (hw : 0 ≤ base.w) (hh : 0 ≤ base.h) :
    tryPlaceClone vw vh scene base = (scene, false) ∨
    ∃ x y : ℚ,
      tryPlaceClone vw vh scene base = (scene ++ [⟨base.w, base.h, x, y⟩], true) ∧
      insideRect (bboxOf ⟨base.w, base.h, x, y⟩) (safeRectOf vw vh) ∧
      ∀ b ∈ scene, 0 ≤ b.w → 0 ≤ b.h →
        sepBy (bboxOf ⟨base.w, base.h, x, y⟩) (bboxOf b) PLACEMENT_GUTTER := by
  simp only [tryPlaceClone, arrangeObjectOnCanvas_append]
  cases hflag : (findPlacement vw vh base.w base.h
      (blockersOf (scene ++ [base]) scene.length)).1 with
  | false =>
      left
      simp [hflag]
  | true =>
      right
      refine ⟨(findPlacement vw vh base.w base.h
          (blockersOf (scene ++ [base]) scene.length)).2.1,
        (findPlacement vw vh base.w base.h
          (blockersOf (scene ++ [base]) scene.length)).2.2, ?_, ?_, ?_⟩
      · simp [hflag]
      · have hres : findPlacement vw vh base.w base.h
            (blockersOf (scene ++ [base]) scene.length) =
            ((findPlacement vw vh base.w base.h
              (blockersOf (scene ++ [base]) scene.length)).1,
             (findPlacement vw vh base.w base.h
              (blockersOf (scene ++ [base]) scene.length)).2.1,
             (findPlacement vw vh base.w base.h
              (blockersOf (scene ++ [base]) scene.length)).2.2) := rfl
        rw [hflag] at hres
        exact (findPlacement_true_spec vw vh base.w base.h _ _ _ hvalid hw hh hres).1
      · intro b hb hbw hbh
        have hres : findPlacement vw vh base.w base.h
            (blockersOf (scene ++ [base]) scene.length) =
            ((findPlacement vw vh base.w base.h
              (blockersOf (scene ++ [base]) scene.length)).1,
             (findPlacement vw vh base.w base.h
              (blockersOf (scene ++ [base]) scene.length)).2.1,
             (findPlacement vw vh base.w base.h
              (blockersOf (scene ++ [base]) scene.length)).2.2) := rfl
        rw [hflag] at hres
        have hspec := (findPlacement_true_spec vw vh base.w base.h _ _ _ hvalid hw hh hres).2.2
        refine hspec (bboxOf b) (mem_blockersOf_append scene base b hb) ?_ ?_ <;>
          · simp only [bboxOf]
            linarith

/-- A clone attempt that reports `false` leaves the scene unchanged. -/
theorem tryPlaceClone_false_eq (vw vh : ℚ) (s : List Obj) (b : Obj)
    (h : (tryPlaceClone vw vh s b).2 = false) : tryPlaceClone vw vh s b = (s, false) := by
  simp only [tryPlaceClone] at h ⊢
  split at h <;> rename_i hc
  · exact absurd h (by simp)
  · rw [if_neg hc]

/-- A clone attempt grows the scene by exactly its success flag. -/
theorem tryPlaceClone_length (vw vh : ℚ) (s : List Obj) (b : Obj) :
    (tryPlaceClone vw vh s b).1.length =
      s.length + (if (tryPlaceClone vw vh s b).2 = true then 1 else 0) := by
  simp only [tryPlaceClone, arrangeObjectOnCanvas_append]
  split <;> simp_all

/-- Count bookkeeping for the round fold: the scene grows by exactly the
number of placed clones. -/
theorem fillFold_length (vw vh : ℚ) :
    ∀ (bases scene : List Obj) (c : Nat),
      (bases.foldl (fun acc base =>
        ((tryPlaceClone vw vh acc.1 base).1,
          acc.2 + if (tryPlaceClone vw vh acc.1 base).2 = true then 1 else 0))
        (scene, c)).1.length + c =
      scene.length + (bases.foldl (fun acc base =>
        ((tryPlaceClone vw vh acc.1 base).1,
          acc.2 + if (tryPlaceClone vw vh acc.1 base).2 = true then 1 else 0))
        (scene, c)).2 := by
  intro bases
  induction bases with
  | nil => intro scene c; simp
  | cons b bases ih =>
      intro scene c
      rw [List.foldl_cons]
      have hlen := tryPlaceClone_length vw vh scene b
      cases hflag : (tryPlaceClone vw vh scene b).2 with
      | false =>
          rw [hflag] at hlen
          simp only [hflag, Bool.false_eq_true, if_false, Nat.add_zero] at hlen ⊢
          have hih := ih (tryPlaceClone vw vh scene b).1 c
          omega
      | true =>
          rw [hflag] at hlen
          simp only [hflag, if_true] at hlen ⊢
          have hih := ih (tryPlaceClone vw vh scene b).1 (c + 1)
          omega

/-- The round fold never decreases the clone counter. -/
theorem fillFold_count_mono (vw vh : ℚ) :
    ∀ (bases scene : List Obj) (c : Nat),
      c ≤ (bases.foldl (fun acc base =>
        ((tryPlaceClone vw vh acc.1 base).1,
          acc.2 + if (tryPlaceClone vw vh acc.1 base).2 = true then 1 else 0))
        (scene, c)).2 := by
  intro bases
  induction bases with
  | nil => intro scene c; exact Nat.le_refl c
  | cons b bases ih =>
      intro scene c
      rw [List.foldl_cons]
      cases hflag : (tryPlaceClone vw vh scene b).2 with
      | false =>
          simp only [hflag, Bool.false_eq_true, if_false, Nat.add_zero]
          exact ih _ c
      | true =>
          simp only [hflag, if_true]
          exact le_trans (Nat.le_succ c) (ih _ (c + 1))

/-- A round that places zero clones leaves the scene unchanged. -/
theorem fillFold_zero (vw vh : ℚ) :
    ∀ (bases scene : List Obj) (c : Nat),
      (bases.foldl (fun acc base =>
        ((tryPlaceClone vw vh acc.1 base).1,
          acc.2 + if (tryPlaceClone vw vh acc.1 base).2 = true then 1 else 0))
        (scene, c)).2 = c →
      (bases.foldl (fun acc base =>
        ((tryPlaceClone vw vh acc.1 base).1,
          acc.2 + if (tryPlaceClone vw vh acc.1 base).2 = true then 1 else 0))
        (scene, c)).1 = scene := by
  intro bases
  induction bases with
  | nil => intro scene c _; simp
  | cons b bases ih =>
      intro scene c h
      rw [List.foldl_cons] at h ⊢
      cases hflag : (tryPlaceClone vw vh scene b).2 with
      | true =>
          exfalso
          have hmono := fillFold_count_mono vw vh bases (tryPlaceClone vw vh scene b).1 (c + 1)
          simp only [hflag, if_true] at h
          omega
      | false =>
          have heq := tryPlaceClone_false_eq vw vh scene b hflag
          simp only [hflag, Bool.false_eq_true, if_false, Nat.add_zero, heq] at h ⊢
          exact ih scene c h

theorem fillRound_eq_fold (vw vh : ℚ) (bases scene : List Obj) :
    fillRound vw vh bases scene =
      bases.foldl (fun acc base =>
        ((tryPlaceClone vw vh acc.1 base).1,
          acc.2 + if (tryPlaceClone vw vh acc.1 base).2 = true then 1 else 0))
        (scene, 0) := rfl

theorem fillRound_length (vw vh : ℚ) (bases scene : List Obj) :
    (fillRound vw vh bases scene).1.length =
      scene.length + (fillRound vw vh bases scene).2 := by
  rw [fillRound_eq_fold]
  have := fillFold_length vw vh bases scene 0
  omega

theorem fillRound_zero_fix (vw vh : ℚ) (bases scene : List Obj)
    (h : (fillRound vw vh bases scene).2 = 0) :
    (fillRound vw vh bases scene).1 = scene := by
  rw [fillRound_eq_fold] at h ⊢
  exact fillFold_zero vw vh bases scene 0 h


/-- Placement invariant of the round fold: all objects appended past the
initial prefix have safe-area bounding boxes, nonnegative dimensions, and are
pairwise separated by a full gutter. -/
theorem fillFold_invariant (vw vh : ℚ) (hvalid : validRect (safeRectOf vw vh)) :
    ∀ (bases scene : List Obj) (c n₀ : Nat),
      (∀ b ∈ bases, 0 ≤ b.w ∧ 0 ≤ b.h) →
      n₀ ≤ scene.length →
      (∀ o ∈ scene.drop n₀,
        insideRect (bboxOf o) (safeRectOf vw vh) ∧ 0 ≤ o.w ∧ 0 ≤ o.h) →
      (scene.drop n₀).Pairwise
        (fun a b => sepBy (bboxOf a) (bboxOf b) PLACEMENT_GUTTER) →
      (n₀ ≤ (bases.foldl (fun acc base =>
          ((tryPlaceClone vw vh acc.1 base).1,
            acc.2 + if (tryPlaceClone vw vh acc.1 base).2 = true then 1 else 0))
          (scene, c)).1.length ∧
       (∀ o ∈ (bases.foldl (fun acc base =>
          ((tryPlaceClone vw vh acc.1 base).1,
            acc.2 + if (tryPlaceClone vw vh acc.1 base).2 = true then 1 else 0))
          (scene, c)).1.drop n₀,
          insideRect (bboxOf o) (safeRectOf vw vh) ∧ 0 ≤ o.w ∧ 0 ≤ o.h) ∧
       ((bases.foldl (fun acc base =>
          ((tryPlaceClone vw vh acc.1 base).1,
            acc.2 + if (tryPlaceClone vw vh acc.1 base).2 = true then 1 else 0))
          (scene, c)).1.drop n₀).Pairwise
          (fun a b => sepBy (bboxOf a) (bboxOf b) PLACEMENT_GUTTER)) := by
  intro bases
  induction bases with
  | nil => intro scene c n₀ _ h1 h2 h3; exact ⟨h1, h2, h3⟩
  | cons b bases ih =>
      intro scene c n₀ hdims hn₀ hok hpair
      rw [List.foldl_cons]
      obtain ⟨hbw, hbh⟩ := hdims b (List.mem_cons_self _ _)
      rcases tryPlaceClone_spec vw vh scene b hvalid hbw hbh with heq | ⟨x, y, heq, hin, hsep⟩
      · simp only [heq, Bool.false_eq_true, if_false, Nat.add_zero]
        exact ih scene c n₀ (fun a ha => hdims a (List.mem_cons_of_mem _ ha)) hn₀ hok hpair
      · simp only [heq, if_true]
        have hdrop : (scene ++ [(⟨b.w, b.h, x, y⟩ : Obj)]).drop n₀ =
            scene.drop n₀ ++ [⟨b.w, b.h, x, y⟩] := List.drop_append_of_le_length hn₀
        refine ih (scene ++ [⟨b.w, b.h, x, y⟩]) (c + 1) n₀
          (fun a ha => hdims a (List.mem_cons_of_mem _ ha)) ?_ ?_ ?_
        · rw [List.length_append]
          omega
        · rw [hdrop]
          intro o ho
          rcases List.mem_append.1 ho with ho | ho
          · exact hok o ho
          · rw [List.mem_singleton.1 ho]
            exact ⟨hin, hbw, hbh⟩
        · rw [hdrop]
          rw [List.pairwise_append]
          refine ⟨hpair, List.pairwise_singleton _ _, ?_⟩
          intro a ha b' hb'
          rw [List.mem_singleton.1 hb']
          obtain ⟨-, haw, hah⟩ := hok a ha
          exact sepBy_comm (hsep a (List.drop_subset _ _ ha) haw hah)

/-- If the fill loop exits through its stop condition, the final scene is a
fixed point: one more round would place zero clones. -/
theorem fillLoop_true_fix (vw vh : ℚ) (bases : List Obj) :
    ∀ (fuel : Nat) (scene : List Obj),
      (fillLoop vw vh bases fuel scene).2 = true →
      (fillRound vw vh bases (fillLoop vw vh bases fuel scene).1).2 = 0 := by
  intro fuel
  induction fuel with
  | zero => intro scene h; exact absurd h (by simp [fillLoop])
  | succ fuel ih =>
      intro scene h
      simp only [fillLoop] at h ⊢
      split at h <;> rename_i hc
      · rw [if_pos hc]
        have hfix := fillRound_zero_fix vw vh bases scene hc
        show (fillRound vw vh bases (fillRound vw vh bases scene).1).2 = 0
        rw [hfix]
        exact hc
      · rw [if_neg hc]
        exact ih _ h

/-- If the fill loop runs out of fuel without reaching the stop condition,
every round placed at least one clone, so the scene grew by at least the
fuel. -/
theorem fillLoop_progress (vw vh : ℚ) (bases : List Obj) :
    ∀ (fuel : Nat) (scene : List Obj),
      (fillLoop vw vh bases fuel scene).2 = false →
      scene.length + fuel ≤ (fillLoop vw vh bases fuel scene).1.length := by
  intro fuel
  induction fuel with
  | zero => intro scene _; simp [fillLoop]
  | succ fuel ih =>
      intro scene h
      simp only [fillLoop] at h ⊢
      split at h <;> rename_i hc
      · exact absurd h (by simp)
      · rw [if_neg hc]
        have hlen := fillRound_length vw vh bases scene
        have hih := ih (fillRound vw vh bases scene).1 h
        have hne : (fillRound vw vh bases scene).2 ≠ 0 := hc
        omega

/-- The clone invariant is preserved by the whole fill loop. -/
theorem fillLoop_inv (vw vh : ℚ) (hvalid : validRect (safeRectOf vw vh))
    (bases : List Obj) (hdims : ∀ b ∈ bases, 0 ≤ b.w ∧ 0 ≤ b.h) :
    ∀ (fuel : Nat) (scene : List Obj) (n₀ : Nat),
      n₀ ≤ scene.length →
      (∀ o ∈ scene.drop n₀,
        insideRect (bboxOf o) (safeRectOf vw vh) ∧ 0 ≤ o.w ∧ 0 ≤ o.h) →
      (scene.drop n₀).Pairwise
        (fun a b => sepBy (bboxOf a) (bboxOf b) PLACEMENT_GUTTER) →
      (n₀ ≤ (fillLoop vw vh bases fuel scene).1.length ∧
       (∀ o ∈ (fillLoop vw vh bases fuel scene).1.drop n₀,
          insideRect (bboxOf o) (safeRectOf vw vh) ∧ 0 ≤ o.w ∧ 0 ≤ o.h) ∧
       ((fillLoop vw vh bases fuel scene).1.drop n₀).Pairwise
          (fun a b => sepBy (bboxOf a) (bboxOf b) PLACEMENT_GUTTER)) := by
  intro fuel
  induction fuel with
  | zero => intro scene n₀ h1 h2 h3; exact ⟨h1, h2, h3⟩
  | succ fuel ih =>
      intro scene n₀ h1 h2 h3
      have hround := fillFold_invariant vw vh hvalid bases scene 0 n₀ hdims h1 h2 h3
      rw [← fillRound_eq_fold] at hround
      simp only [fillLoop]
      split <;> rename_i hc
      · exact hround
      · exact ih (fillRound vw vh bases scene).1 n₀ hround.1 hround.2.1 hround.2.2


/-- Grid pigeonhole: pairwise non-overlapping rectangles of width and height
at least `2 s` inside a container each contain a distinct point of the
`s`-spaced grid, so their number is bounded by the container's grid size. -/
theorem rect_count_le (C : Rect) (s : ℚ) (hs : 0 < s) (l : List Rect)
    (hin : ∀ r ∈ l, insideRect r C ∧ 2 * s ≤ r.right - r.left ∧ 2 * s ≤ r.bottom - r.top)
    (hsep : l.Pairwise (fun a b => ¬ rectsOverlap a b)) :
    l.length ≤ ((Finset.Icc (⌊C.left / s⌋ + 1) ⌊C.right / s⌋) ×ˢ
      (Finset.Icc (⌊C.top / s⌋ + 1) ⌊C.bottom / s⌋)).card := by
  have hpt : ∀ r ∈ l,
      (r.left < ((⌊r.left / s⌋ + 1 : ℤ) : ℚ) * s ∧
        ((⌊r.left / s⌋ + 1 : ℤ) : ℚ) * s < r.right) ∧
      (r.top < ((⌊r.top / s⌋ + 1 : ℤ) : ℚ) * s ∧
        ((⌊r.top / s⌋ + 1 : ℤ) : ℚ) * s < r.bottom) := by
    intro r hr
    obtain ⟨-, hw2, hh2⟩ := hin r hr
    have hx1 : r.left / s < ((⌊r.left / s⌋ : ℚ) + 1) := Int.lt_floor_add_one _
    have hx2 : ((⌊r.left / s⌋ : ℚ)) ≤ r.left / s := Int.floor_le _
    have hy1 : r.top / s < ((⌊r.top / s⌋ : ℚ) + 1) := Int.lt_floor_add_one _
    have hy2 : ((⌊r.top / s⌋ : ℚ)) ≤ r.top / s := Int.floor_le _
    have hx1' : r.left < ((⌊r.left / s⌋ : ℚ) + 1) * s := (div_lt_iff hs).1 hx1
    have hx2' : ((⌊r.left / s⌋ : ℚ)) * s ≤ r.left := by
      rw [← le_div_iff hs]
      exact hx2
    have hy1' : r.top < ((⌊r.top / s⌋ : ℚ) + 1) * s := (div_lt_iff hs).1 hy1
    have hy2' : ((⌊r.top / s⌋ : ℚ)) * s ≤ r.top := by
      rw [← le_div_iff hs]
      exact hy2
    have hex : ((⌊r.left / s⌋ : ℚ) + 1) * s = (⌊r.left / s⌋ : ℚ) * s + s := by ring
    have hey : ((⌊r.top / s⌋ : ℚ) + 1) * s = (⌊r.top / s⌋ : ℚ) * s + s := by ring
    push_cast
    refine ⟨⟨hx1', ?_⟩, ⟨hy1', ?_⟩⟩
    · rw [hex]
      linarith
    · rw [hey]
      linarith
  have hsym : Symmetric (fun a b : Rect => ¬ rectsOverlap a b) := by
    intro x y hxy hov
    exact hxy (rectsOverlap_comm hov)
  have hforall : ∀ a ∈ l, ∀ b ∈ l, a ≠ b → ¬ rectsOverlap a b :=
    fun a ha b hb hne => List.Pairwise.forall hsym hsep ha hb hne
  have hgrid : ∀ r ∈ l, (⌊r.left / s⌋ + 1, ⌊r.top / s⌋ + 1) ∈
      ((Finset.Icc (⌊C.left / s⌋ + 1) ⌊C.right / s⌋) ×ˢ
        (Finset.Icc (⌊C.top / s⌋ + 1) ⌊C.bottom / s⌋)) := by
    intro r hr
    obtain ⟨⟨hcl, hct, hcr, hcb⟩, hw2, hh2⟩ := hin r hr
    obtain ⟨⟨-, hx2⟩, -, hy2⟩ := hpt r hr
    rw [Finset.mem_product]
    constructor <;> rw [Finset.mem_Icc] <;> constructor
    · have := Int.floor_le_floor ((div_le_div_right hs).2 hcl)
      omega
    · refine Int.le_floor.2 ?_
      rw [le_div_iff hs]
      push_cast
      push_cast at hx2
      linarith
    · have := Int.floor_le_floor ((div_le_div_right hs).2 hct)
      omega
    · refine Int.le_floor.2 ?_
      rw [le_div_iff hs]
      push_cast
      push_cast at hy2
      linarith
  have hnodup : (l.map (fun r => ((⌊r.left / s⌋ + 1 : ℤ), (⌊r.top / s⌋ + 1 : ℤ)))).Nodup := by
    refine List.Nodup.map_on ?_ ?_
    · intro a ha b hb hab
      by_contra hne
      refine hforall a ha b hb hne ?_
      have h1 : ⌊a.left / s⌋ = ⌊b.left / s⌋ := by
        have := congrArg Prod.fst hab
        simpa using this
      have h2 : ⌊a.top / s⌋ = ⌊b.top / s⌋ := by
        have := congrArg Prod.snd hab
        simpa using this
      obtain ⟨⟨ha1, ha2⟩, ⟨ha3, ha4⟩⟩ := hpt a ha
      obtain ⟨⟨hb1, hb2⟩, ⟨hb3, hb4⟩⟩ := hpt b hb
      rw [← h1] at hb1 hb2
      rw [← h2] at hb3 hb4
      exact ⟨lt_trans (max_lt ha1 hb1) (lt_min ha2 hb2),
        lt_trans (max_lt ha3 hb3) (lt_min ha4 hb4)⟩
    · refine List.Pairwise.imp_of_mem ?_ hsep
      intro a b ha hb hnov hab
      subst hab
      obtain ⟨⟨ha1, ha2⟩, ⟨ha3, ha4⟩⟩ := hpt a ha
      exact hnov ⟨by rw [max_self, min_self]; linarith,
        by rw [max_self, min_self]; linarith⟩
  calc l.length
      = (l.map (fun r => ((⌊r.left / s⌋ + 1 : ℤ), (⌊r.top / s⌋ + 1 : ℤ)))).length := by
        rw [List.length_map]
    _ = (l.map (fun r => ((⌊r.left / s⌋ + 1 : ℤ), (⌊r.top / s⌋ + 1 : ℤ)))).toFinset.card :=
        (List.toFinset_card_of_nodup hnodup).symm
    _ ≤ _ := by
        refine Finset.card_le_card ?_
        intro p hp
        rw [List.mem_toFinset] at hp
        obtain ⟨r, hr, hpr⟩ := List.mem_map.1 hp
        rw [← hpr]
        exact hgrid r hr


/-- Rectangles separated by a full gutter have non-overlapping half-gutter
inflations. -/
theorem not_overlap_expand_of_sepBy {a b : Rect} {g : ℚ}
    (h : sepBy a b g) :
    ¬ rectsOverlap (expandRect a (g / 2)) (expandRect b (g / 2)) := by
  rcases h with h | h | h | h
  · refine not_rectsOverlap_of_le_x ?_
    refine le_trans (min_le_left _ _) (le_trans ?_ (le_max_right _ _))
    show a.right + g / 2 ≤ b.left - g / 2
    linarith
  · refine not_rectsOverlap_of_le_x ?_
    refine le_trans (min_le_right _ _) (le_trans ?_ (le_max_left _ _))
    show b.right + g / 2 ≤ a.left - g / 2
    linarith
  · refine not_rectsOverlap_of_le_y ?_
    refine le_trans (min_le_left _ _) (le_trans ?_ (le_max_right _ _))
    show a.bottom + g / 2 ≤ b.top - g / 2
    linarith
  · refine not_rectsOverlap_of_le_y ?_
    refine le_trans (min_le_right _ _) (le_trans ?_ (le_max_left _ _))
    show b.bottom + g / 2 ≤ a.top - g / 2
    linarith

/-- C3: the clone loop of `fillSheet` terminates. With enough fuel the
modelled `do ... while (clonesPlacedInPass > 0)` loop exits through its stop
condition — a full round that places zero additional clones — and the final
scene is a fixed point of the round. -/
theorem fillSheet_cloneLoop_terminates (vw vh : ℚ) (bases scene : List Obj)
    (hvalid : validRect (safeRectOf vw vh))
    (hdims : ∀ b ∈ bases, 0 ≤ b.w ∧ 0 ≤ b.h) :
    ∃ fuel : Nat, (fillLoop vw vh bases fuel scene).2 = true ∧
      (fillRound vw vh bases (fillLoop vw vh bases fuel scene).1).2 = 0 := by
  set B := ((Finset.Icc
      (⌊(expandRect (safeRectOf vw vh) (PLACEMENT_GUTTER / 2)).left /
        (PLACEMENT_GUTTER / 2)⌋ + 1)
      ⌊(expandRect (safeRectOf vw vh) (PLACEMENT_GUTTER / 2)).right /
        (PLACEMENT_GUTTER / 2)⌋) ×ˢ
    (Finset.Icc
      (⌊(expandRect (safeRectOf vw vh) (PLACEMENT_GUTTER / 2)).top /
        (PLACEMENT_GUTTER / 2)⌋ + 1)
      ⌊(expandRect (safeRectOf vw vh) (PLACEMENT_GUTTER / 2)).bottom /
        (PLACEMENT_GUTTER / 2)⌋)).card with hB
  suffices hflag : (fillLoop vw vh bases (B + 1) scene).2 = true by
    exact ⟨B + 1, hflag, fillLoop_true_fix vw vh bases (B + 1) scene hflag⟩
  by_contra hfalse
  rw [Bool.not_eq_true] at hfalse
  have hlen := fillLoop_progress vw vh bases (B + 1) scene hfalse
  obtain ⟨hn, hok, hpair⟩ := fillLoop_inv vw vh hvalid bases hdims (B + 1) scene
    scene.length (le_refl _) (by simp) (by simp)
  have hcount : B + 1 ≤ ((fillLoop vw vh bases (B + 1) scene).1.drop scene.length).length := by
    rw [List.length_drop]
    omega
  have hg2 : (0 : ℚ) < PLACEMENT_GUTTER / 2 := by norm_num [PLACEMENT_GUTTER]
  have hgg : 2 * (PLACEMENT_GUTTER / 2) = PLACEMENT_GUTTER := by ring
  have hin' : ∀ r ∈ ((fillLoop vw vh bases (B + 1) scene).1.drop scene.length).map
      (fun o => expandRect (bboxOf o) (PLACEMENT_GUTTER / 2)),
      insideRect r (expandRect (safeRectOf vw vh) (PLACEMENT_GUTTER / 2)) ∧
      2 * (PLACEMENT_GUTTER / 2) ≤ r.right - r.left ∧
      2 * (PLACEMENT_GUTTER / 2) ≤ r.bottom - r.top := by
    intro r hr
    obtain ⟨o, ho, hor⟩ := List.mem_map.1 hr
    obtain ⟨⟨e1, e2, e3, e4⟩, how, hoh⟩ := hok o ho
    rw [← hor]
    simp only [expandRect, insideRect, bboxOf] at e1 e2 e3 e4 ⊢
    rw [hgg]
    refine ⟨⟨by linarith, by linarith, by linarith, by linarith⟩, ?_, ?_⟩ <;>
      · simp only [PLACEMENT_GUTTER] at *
        linarith
  have hsep' : (((fillLoop vw vh bases (B + 1) scene).1.drop scene.length).map
      (fun o => expandRect (bboxOf o) (PLACEMENT_GUTTER / 2))).Pairwise
      (fun a b => ¬ rectsOverlap a b) := by
    rw [List.pairwise_map]
    exact List.Pairwise.imp (fun h => not_overlap_expand_of_sepBy h) hpair
  have happly := rect_count_le (expandRect (safeRectOf vw vh) (PLACEMENT_GUTTER / 2))
    (PLACEMENT_GUTTER / 2) hg2 _ (fun r hr => hin' r hr) hsep'
  rw [List.length_map] at happly
  rw [← hB] at happly
  omega

theorem fillSheet_cloneLoop_terminates_witness :
    ∃ fuel : Nat, (fillLoop 300 300 [⟨100, 100, 0, 0⟩] fuel []).2 = true ∧
      (fillRound 300 300 [⟨100, 100, 0, 0⟩]
        (fillLoop 300 300 [⟨100, 100, 0, 0⟩] fuel []).1).2 = 0 :=
  fillSheet_cloneLoop_terminates 300 300 [⟨100, 100, 0, 0⟩] []
    (by simp only [validRect, safeRectOf, BLEED_PIXELS, PLACEMENT_PADDING]; norm_num)
    (by intro b hb
        rw [List.mem_singleton] at hb
        subst hb
        exact ⟨by norm_num, by norm_num⟩)

end Designer
